import Mathlib

/-!
Verification of the pdfreader decoding core against its specification.

The development shallowly embeds two source files:
  * `pdfreader/filters/lzw.py` — the adaptive-width LZW decompressor
    (bit unpacker, codebook decoder, filter entry point), and
  * `pdfreader/viewer/simple.py` — the content-stream text-operator
    interpreter (`object_to_string`, `TextOperatorsMixin`).

Bytes are `Nat` (values < 256 where it matters), byte strings are
`List Nat`, Python exceptions are the explicit `PyErr` sum.  Components
of the repository that are not part of the two embedded files (the
predictor-removal step, the string-decoder codec, the operator dispatch
loop of `PDFViewer`, the graphics-state object) are modelled from the
specification; each such definition carries a doc comment starting with
"Modelled from the spec:".
-/

set_option maxRecDepth 100000

/-- Python exception values that the embedded code can raise.
`valueError` carries the message; `typeError` models the `TypeError`
raised by `None + bytes`; `indexError` models `list[0]` on an empty
list. -/
inductive PyErr where
  | valueError (msg : String)
  | typeError
  | indexError
  deriving DecidableEq, Repr

/-- Decidable equality for `Except` results, so that concrete runs of
the embedded functions can be checked by `decide`. -/
instance instDecEqExcept {ε α : Type} [DecidableEq ε] [DecidableEq α] :
    DecidableEq (Except ε α) := fun a b =>
  match a, b with
  | .error e, .error f =>
      if h : e = f then .isTrue (by rw [h]) else .isFalse (by simp [h])
  | .error _, .ok _ => .isFalse (by simp)
  | .ok _, .error _ => .isFalse (by simp)
  | .ok x, .ok y =>
      if h : x = y then .isTrue (by rw [h]) else .isFalse (by simp [h])

namespace Lzw

/-- `CLEAR_CODE = 256` from lzw.py. -/
def CLEAR_CODE : Nat := 256

/-- `END_OF_INFO_CODE = 257` from lzw.py. -/
def END_OF_INFO_CODE : Nat := 257

/-- `DEFAULT_MIN_BITS = 9` from lzw.py. -/
def DEFAULT_MIN_BITS : Nat := 9

/-- `DEFAULT_MAX_BITS = 12` from lzw.py.  Note: this constant is never
read by any code in lzw.py; the unpacker's width growth is unbounded. -/
def DEFAULT_MAX_BITS : Nat := 12

/-- The eight bits of one byte, most significant first: the inner loop of
`bytestobits` (`for bitplusone in range(8, 0, -1): nextbit = 1 & (value >> bitindex)`). -/
def byteBits (value : Nat) : List Bool :=
  ((List.range 8).reverse).map fun bitindex => (value >>> bitindex) &&& 1 == 1

/-- `bytestobits`: break an iterable of bytes into the stream of their
bits, most significant bit first. -/
def bytestobits : List Nat → List Bool
  | [] => []
  | v :: vs => byteBits v ++ bytestobits vs

/-- `intfrombits`: interpret a list of booleans as an MSB-first unsigned
integer (`lsb_first = reversed(bits); ret |= 1 << i for each set bit`). -/
def intfrombits (bits : List Bool) : Nat :=
  let lsb_first := bits.reverse
  (List.range lsb_first.length).foldl
    (fun ret bit_index => if lsb_first.getD bit_index false then ret ||| (1 <<< bit_index) else ret) 0

/-- Body of the `while (1 << minwidth) < codesize: minwidth += 1` loop of
`BitUnpacker.unpack`, with explicit fuel.  `minWidth` supplies fuel
`codesize + 1`, which is always sufficient (the loop stops once
`2 ^ w ≥ codesize`, and `2 ^ w` outgrows `codesize` within
`codesize + 1` increments). -/
def minWidthAux : Nat → Nat → Nat → Nat
  | 0, _, w => w
  | fuel + 1, codesize, w =>
      if 1 <<< w < codesize then minWidthAux fuel codesize (w + 1) else w

/-- `minwidth = 8; while (1 << minwidth) < codesize: minwidth += 1`. -/
def minWidth (codesize : Nat) : Nat := minWidthAux (codesize + 1) codesize 8

/-- Body of the `while codesize >= (2 ** pointwidth): pointwidth += 1`
loop of `BitUnpacker.unpack`, with explicit fuel.  `growWidth` supplies
fuel `codesize + 1`, which is always sufficient. -/
def growWidthAux : Nat → Nat → Nat → Nat
  | 0, _, w => w
  | fuel + 1, codesize, w =>
      if 2 ^ w ≤ codesize then growWidthAux fuel codesize (w + 1) else w

/-- The width-growth loop: smallest `w' ≥ w` with `codesize < 2 ^ w'`. -/
def growWidth (codesize w : Nat) : Nat := growWidthAux (codesize + 1) codesize w

/-- The loop state of `BitUnpacker.unpack`: the accumulated bit group
`bits`, the byte-alignment counter `offset`, the post-END-OF-INFO skip
counter `ignore`, the tracked codebook size `codesize`, the current code
width `pointwidth`, plus the constants `initial` (= `initial_code_size`)
and `minwidth`.  `sinceReset` is instrumentation only: the number of
codepoints emitted since the last CLEAR/END-OF-INFO (or since the start);
no source behaviour depends on it. -/
structure UnpackState where
  bits : List Bool
  offset : Nat
  ignore : Nat
  codesize : Nat
  pointwidth : Nat
  initial : Nat
  minwidth : Nat
  sinceReset : Nat
  deriving DecidableEq, Repr

/-- One emitted codepoint, instrumented with the code width in effect
when it was emitted and the `sinceReset` counter at emission. -/
structure UEntry where
  cp : Nat
  width : Nat
  since : Nat
  deriving DecidableEq, Repr

/-- One iteration of the `for nextbit in bytestobits(bytesource)` loop of
`BitUnpacker.unpack`: update the state and possibly emit a codepoint. -/
def unpackStepBit (s : UnpackState) (nextbit : Bool) : UnpackState × Option UEntry :=
  let offset := (s.offset + 1) % 8
  if s.ignore > 0 then
    ({ s with offset := offset, ignore := s.ignore - 1 }, none)
  else
    let bits := s.bits ++ [nextbit]
    if bits.length = s.pointwidth then
      let codepoint := intfrombits bits
      let entry : UEntry := ⟨codepoint, s.pointwidth, s.sinceReset⟩
      let codesize := s.codesize + 1
      if codepoint = CLEAR_CODE ∨ codepoint = END_OF_INFO_CODE then
        ({ s with bits := [], offset := offset,
                  codesize := s.initial, pointwidth := s.minwidth, sinceReset := 0,
                  ignore := if codepoint = END_OF_INFO_CODE then (8 - offset) % 8 else s.ignore },
         some entry)
      else
        ({ s with bits := [], offset := offset,
                  codesize := codesize, pointwidth := growWidth codesize s.pointwidth,
                  sinceReset := s.sinceReset + 1 },
         some entry)
    else
      ({ s with bits := bits, offset := offset }, none)

/-- Run the unpack loop over a bit list, collecting the emitted
codepoints in order (with their instrumentation). -/
def unpackBits : List Bool → UnpackState → List UEntry
  | [], _ => []
  | b :: bs, s =>
      match unpackStepBit s b with
      | (s', some e) => e :: unpackBits bs s'
      | (s', none) => unpackBits bs s'

/-- The initial loop state of `BitUnpacker.unpack` for a given
`initial_code_size`. -/
def initUnpackState (initial_code_size : Nat) : UnpackState :=
  { bits := [], offset := 0, ignore := 0,
    codesize := initial_code_size, pointwidth := minWidth initial_code_size,
    initial := initial_code_size, minwidth := minWidth initial_code_size,
    sinceReset := 0 }

/-- `BitUnpacker(initial_code_size).unpack(bytesource)` with emission
instrumentation retained. -/
def unpackTrace (initial_code_size : Nat) (bytesource : List Nat) : List UEntry :=
  unpackBits (bytestobits bytesource) (initUnpackState initial_code_size)

/-- `BitUnpacker(initial_code_size).unpack(bytesource)`: the emitted
codepoint sequence. -/
def unpack (initial_code_size : Nat) (bytesource : List Nat) : List Nat :=
  (unpackTrace initial_code_size bytesource).map UEntry.cp

/-- The state of `Decoder`: the codebook `_codepoints` and the remembered
previous output `_prefix` (renamed `prev` here to keep the field a plain
Lean identifier).  The Python codebook is a dict whose
keys are always exactly `0 .. len-1` (it starts as `range(256)` plus the
two control keys and only ever gains the key `len(self._codepoints)`), so
it is represented positionally as a list.  The control keys 256 and 257
hold the integers 256 and 257 in Python, not byte strings; they are never
looked up (those codepoints are intercepted first), only counted by
`len`, so they are represented by placeholder `[]` entries. -/
structure DecState where
  codebook : List (List Nat)
  prev : Option (List Nat)
  deriving DecidableEq, Repr

/-- `Decoder._clear_codes`: 256 single-byte entries plus the two control
entries, and no remembered previous output. -/
def clearCodes : DecState :=
  { codebook := (List.range 256).map (fun pt => [pt]) ++ [[], []],
    prev := none }

/-- The message of the ValueError raised on a direct END-OF-INFO. -/
def eoiMsg : String := "End of information code not supported directly by this Decoder"

/-- `Decoder._decode_codepoint`: returns the decoded bytes for one
codepoint and the updated decoder state, or the exception the Python
code raises.  Mirrors the source branch for branch; in the unknown-
codepoint branch the source computes `ret = self._prefix + ret[0:1]`
where `ret` is still `b""`, and `None + b""` is a `TypeError` when no
previous output exists. -/
def decodeCodepoint (st : DecState) (codepoint : Nat) : Except PyErr (List Nat × DecState) :=
  if codepoint = CLEAR_CODE then
    .ok ([], clearCodes)
  else if codepoint = END_OF_INFO_CODE then
    .error (.valueError eoiMsg)
  else
    match st.codebook.get? codepoint with
    | some ret =>
        let codebook :=
          match st.prev with
          | some p => st.codebook ++ [p ++ ret.take 1]
          | none => st.codebook
        .ok (ret, { codebook := codebook, prev := some ret })
    | none =>
        match st.prev with
        | none => .error .typeError
        | some p =>
            let ret := p ++ ([] : List Nat).take 1
            .ok (ret, { codebook := st.codebook ++ [ret], prev := some ret })

/-- `Decoder.decode`: decode a codepoint list, concatenating the
per-codepoint outputs; any exception aborts the whole call. -/
def decodeList : List Nat → DecState → Except PyErr (List Nat × DecState)
  | [], st => .ok ([], st)
  | cp :: cps, st =>
      match decodeCodepoint st cp with
      | .error e => .error e
      | .ok (r, st') =>
          match decodeList cps st' with
          | .error e => .error e
          | .ok (rest, st'') => .ok (r ++ rest, st'')

/-- `Decoder.code_size()` of a fresh decoder: 258. -/
def initialCodeSize : Nat := clearCodes.codebook.length

/-- `decompress` / `ByteDecoder.decodefrombytes`: a fresh `Decoder`, a
`BitUnpacker` seeded with its `code_size()`, unpack then decode. -/
def decompress (compressed_bytes : List Nat) : Except PyErr (List Nat) :=
  (decodeList (unpack initialCodeSize compressed_bytes) clearCodes).map Prod.fst

/-- The recognized keys of the `decode` parameter dictionary. -/
structure FilterParams where
  Predictor : Option Int
  Columns : Option Int
  deriving DecidableEq, Repr

/-- Modelled from the spec: `_remove_predictors` (module
`pdfreader/filters/predictors.py`, not among the given sources) is the
external predictor-removal collaborator
`remove_predictor(bytes, predictor_code, columns) -> bytes`, "invoked
only when `Predictor` is present and not the identity value".  The
spec does not define the transformation itself, and no claim exercises a
non-identity predictor, so the transformation is modelled as the
identity on the byte data. -/
def removePredictors (data : List Nat) (_predictor : Option Int) (_columns : Option Int) :
    Except PyErr (List Nat) :=
  .ok data

/-- The body of the `try` block of the filter entry point: the LZW
pipeline followed by predictor removal. -/
def decodeAttempt (data : List Nat) (params : FilterParams) : Except PyErr (List Nat) :=
  match decompress data with
  | .error e => .error e
  | .ok d => removePredictors d params.Predictor params.Columns

/-- The filter entry point `decode(data, params)`: run the pipeline and
the predictor removal inside `try`, catch `ValueError` only (degrading
to empty bytes); any other exception propagates to the caller. -/
def decode (data : List Nat) (params : FilterParams) : Except PyErr (List Nat) :=
  match decodeAttempt data params with
  | .ok d => .ok d
  | .error (.valueError _) => .ok []
  | .error e => .error e

/-- The doctest vector of `decode`/`decompress`. -/
def sampleCompressed : List Nat :=
  [0x39, 0x98, 0x4D, 0xA7, 0x03, 0x61, 0x94, 0x40, 0x74, 0x32, 0x9E, 0x0E, 0x90, 0x00]

/-- The bytes of the text `sample text`. -/
def sampleText : List Nat :=
  [115, 97, 109, 112, 108, 101, 32, 116, 101, 120, 116]

/-- The doctest codepoint vector of `Decoder.decode`. -/
def gabbaCodepoints : List Nat :=
  [103, 97, 98, 98, 97, 32, 258, 260, 262, 121, 111, 263, 259, 261, 256]

/-- The bytes of the text `gabba gabba yo gabba`. -/
def gabbaText : List Nat :=
  [103, 97, 98, 98, 97, 32, 103, 97, 98, 98, 97, 32, 121, 111, 32, 103, 97, 98, 98, 97]


/-- `Decoder.code_size()`. -/
def DecState.code_size (st : DecState) : Nat := st.codebook.length

end Lzw

namespace Viewer

mutual
/-- The closed variant of operand values handled by
`object_to_string` in `pdfreader/viewer/simple.py`.  The `str`,
`pdfString` and `hexString` constructors all represent Python `str`
instances (the two pdfreader string types are `str` subclasses and pass
the `isinstance(obj, str)` check); the interpreter distinguishes them.
`integer` covers `int`/`Integer` (whose `str()` is the decimal
rendering) and `decimal` carries the `str()` rendering of a `Decimal`.
`other` stands for any Python value outside every `isinstance` branch,
on which the source raises `ValueError`. -/
inductive PdfObj where
  | null
  | boolean (b : Bool)
  | name (s : String)
  | str (s : String)
  | pdfString (s : String)
  | hexString (s : String)
  | integer (n : Int)
  | decimal (s : String)
  | array (xs : PdfObjs)
  | dict (kvs : PdfKVs)
  | operator (nm : String) (args : PdfObjs)
  | inlineImage (entries : PdfKVs) (filtered : List Nat)
  | other
/-- A list of operand values (a separate mutual type because Lean 4.14
cannot recurse structurally through a nested `List PdfObj`). -/
inductive PdfObjs where
  | nil
  | cons (x : PdfObj) (xs : PdfObjs)
/-- An insertion-ordered dictionary of name-keyed operand values. -/
inductive PdfKVs where
  | nil
  | cons (k : String) (v : PdfObj) (xs : PdfKVs)
end

/-- The base-85 alphabet of Python `base64.b85encode`. -/
def b85alphabet : String :=
  "0123456789ABCDEFGHIJKLMNOPQRSTUVWXYZabcdefghijklmnopqrstuvwxyz!#$%&()*+-;<=>?@^_`\x7b|\x7d~"

/-- The five base-85 digits of one 32-bit word, most significant first. -/
def b85chunk (w : Nat) : List Char :=
  [w / 85 ^ 4 % 85, w / 85 ^ 3 % 85, w / 85 ^ 2 % 85, w / 85 % 85, w % 85].map
    (fun d => b85alphabet.toList.getD d ' ')

/-- Big-endian 32-bit words of a byte list, the final partial group
zero-padded (as `b85encode` pads before encoding). -/
def b85words : List Nat → List Nat
  | [] => []
  | [a] => [a * 2 ^ 24]
  | [a, b] => [a * 2 ^ 24 + b * 2 ^ 16]
  | [a, b, c] => [a * 2 ^ 24 + b * 2 ^ 16 + c * 2 ^ 8]
  | a :: b :: c :: d :: rest => (a * 2 ^ 24 + b * 2 ^ 16 + c * 2 ^ 8 + d) :: b85words rest

/-- Python `base64.b85encode(data)`: encode each padded word as five
base-85 digits and drop the padding digits of the final group. -/
def b85encode (bs : List Nat) : String :=
  let encoded := String.mk (((b85words bs).map b85chunk).flatten)
  encoded.dropRight ((4 - bs.length % 4) % 4)

/-- The message of the `ValueError` raised by `object_to_string` on an
unrecognized value.  The source interpolates the offending object into
the message (`"Unexpected object: {}. Possibly a bug."`); the
interpolation is elided here. -/
def unexpectedMsg : String := "Unexpected object. Possibly a bug."

mutual
/-- `object_to_string` from `pdfreader/viewer/simple.py`: the
reconstruction serializer.  Branch for branch: `None`, `Boolean`,
`Name`, `str` (all Python strings pass through verbatim), numbers via
`str()`, `Array`, `Dictionary` (insertion order), `Operator`,
`InlineImage` (parameter dictionary with `F`/`Filter`/`DecodeParms`
stripped, forced `/Filter /ASCII85Decode`, base-85 payload), and the
final `raise ValueError` for anything else. -/
def object_to_string : PdfObj → Except PyErr String
  | .null => .ok "null"
  | .boolean b => .ok (if b then "true" else "false")
  | .name s => .ok ("/" ++ s)
  | .str s => .ok s
  | .pdfString s => .ok s
  | .hexString s => .ok s
  | .integer n => .ok (toString n)
  | .decimal s => .ok s
  | .array xs =>
      match serializeItems xs with
      | .error e => .error e
      | .ok parts => .ok ("[" ++ String.intercalate " " parts ++ "]")
  | .dict kvs =>
      match serializeEntries (fun _ => true) kvs with
      | .error e => .error e
      | .ok parts => .ok ("<<" ++ String.intercalate " " parts ++ ">>")
  | .operator nm args =>
      match serializeItems args with
      | .error e => .error e
      | .ok parts => .ok ("\n" ++ String.intercalate " " parts ++ " " ++ nm)
  | .inlineImage entries filtered =>
      match serializeEntries
          (fun k => !(k == "F" || k == "Filter" || k == "DecodeParms")) entries with
      | .error e => .error e
      | .ok parts =>
          let entriesStr := String.intercalate " " parts ++ " /Filter /ASCII85Decode"
          let content := b85encode filtered ++ "~>"
          .ok ("\nBI\n" ++ entriesStr ++ "\nID\n" ++ content ++ "\nEI")
  | .other => .error (.valueError unexpectedMsg)
/-- The element serialization of the `Array`/`Operator` branches
(`[object_to_string(elm) for elm in obj]`). -/
def serializeItems : PdfObjs → Except PyErr (List String)
  | .nil => .ok []
  | .cons x xs =>
      match object_to_string x with
      | .error e => .error e
      | .ok s =>
          match serializeItems xs with
          | .error e => .error e
          | .ok ss => .ok (s :: ss)
/-- The `"/{} {}"`-shaped pair serialization of the `Dictionary` and
`InlineImage` branches, with the key filter of the latter. -/
def serializeEntries : (String → Bool) → PdfKVs → Except PyErr (List String)
  | _, .nil => .ok []
  | keep, .cons k v xs =>
      if keep k then
        match object_to_string v with
        | .error e => .error e
        | .ok s =>
            match serializeEntries keep xs with
            | .error e => .error e
            | .ok ss => .ok (("/" ++ k ++ " " ++ s) :: ss)
      else serializeEntries keep xs
end

/-- The canvas fields written by `TextOperatorsMixin` (`SimpleCanvas`
lives in `viewer/canvas.py`, outside the given sources; only the fields
the embedded code writes are represented): the decoded-strings list, the
reconstructed-text buffer and the inline-image list. -/
structure Canvas where
  strings : List String
  text_content : String
  inline_images : List (PdfKVs × List Nat)

/-- Modelled from the spec: the resource environment collaborator
"exposes a font table (name → font description, used to build a string
decoder)".  Font descriptions are opaque here and represented by a
`String` tag. -/
structure Resources where
  Font : List (String × String)

/-- Modelled from the spec: the external string-decoder collaborator
(`pdfreader/codecs/decoder.py`, not among the given sources).  `dflt` is
the module-level `default_decoder`; `forFont f` is `Decoder(font)`
built from a font description.  The decoding functions themselves are
external; what matters to the claims is only which decoder instance is
used and that hex-encoded and literal-encoded strings route through
distinct calls, so both are modelled as the identity on the raw text. -/
inductive StrDec where
  | dflt
  | forFont (f : String)
  deriving DecidableEq, Repr

/-- Modelled from the spec: `decode_hexstring` of the string decoder. -/
def StrDec.decode_hexstring (_d : StrDec) (s : String) : String := s

/-- Modelled from the spec: `decode_string` of the string decoder. -/
def StrDec.decode_string (_d : StrDec) (s : String) : String := s

/-- Modelled from the spec: `pdf_escape_string` from `pdfreader/utils.py`
(not among the given sources) produces the escaped literal-string form
of the decoded text; the escaping algorithm is external and modelled as
the identity. -/
def pdf_escape_string (s : String) : String := s

/-- The interpreter state of `TextOperatorsMixin`: the bracket-command
stack (list head = Python `stack[-1]`), the graphics-state `Font` slot
written by `on_Tf` (the graphics-state object lives outside the given
sources), and the per-instance decoder cache `_decoders` (a Python dict;
represented as an association list with the most recent insertion first
— no embedded code iterates the cache, so insertion order is
immaterial).  `constructions` and `namesUsed` are instrumentation only:
`constructions` counts executions of the cache-miss branch of the
`decoder` property (each of which binds a decoder instance for the
looked-up name), and `namesUsed` records the font name of every
`decoder` property access; no source behaviour depends on either. -/
structure VState where
  bracket_commands_stack : List (String × PdfObjs)
  Font : PdfObjs
  decoders : List (Option String × StrDec)
  constructions : Nat
  namesUsed : List (Option String)
  canvas : Canvas

/-- The fresh interpreter state (`__init__`: empty bracket stack, empty
decoder cache, fresh canvas; no font selected yet). -/
def initVState : VState :=
  { bracket_commands_stack := [], Font := .nil, decoders := [],
    constructions := 0, namesUsed := [],
    canvas := { strings := [], text_content := "", inline_images := [] } }

/-- The `mode` property: the name of the most recent bracket command,
if any. -/
def mode (st : VState) : Option String :=
  st.bracket_commands_stack.head?.map Prod.fst

/-- Modelled from the spec: `gss.state.font_name`, the name stored by
the set-font operator (whose operands are a name and a size). -/
def font_name (st : VState) : Option String :=
  match st.Font with
  | .cons (.name n) _ => some n
  | _ => none

/-- Lookup in the decoder cache (`name in self._decoders`). -/
def findDecoder : List (Option String × StrDec) → Option String → Option StrDec
  | [], _ => none
  | (k, d) :: rest, nm => if k = nm then some d else findDecoder rest nm

/-- Lookup in the resource font table (`name in self.resources.Font`).
A `none` font name is never in the table (Python `None in dict` is
false). -/
def findFont : List (String × String) → Option String → Option String
  | [], _ => none
  | (k, f) :: rest, nm => if some k = nm then some f else findFont rest nm

/-- The `decoder` property of `TextOperatorsMixin`: resolve the string
decoder for the current font name, creating and caching it on first use
(a `Decoder(font)` when the resource environment has a matching font
entry, the module-level default decoder otherwise). -/
def decoderProp (res : Resources) (st : VState) : StrDec × VState :=
  let nm := font_name st
  let stRec := { st with namesUsed := st.namesUsed ++ [nm] }
  match findDecoder st.decoders nm with
  | some d => (d, stRec)
  | none =>
      let d := match findFont res.Font nm with
        | some f => StrDec.forFont f
        | none => StrDec.dflt
      (d, { stRec with decoders := (nm, d) :: st.decoders,
                       constructions := st.constructions + 1 })

/-- `decode_string` of `TextOperatorsMixin`: hex-encoded strings route
through `decode_hexstring`, other strings through `decode_string`, both
via the (cached) per-font decoder.  A non-string operand makes the
external decoder fail; modelled as a `TypeError`. -/
def decode_string (res : Resources) (s : PdfObj) (st : VState) :
    Except PyErr (String × VState) :=
  match s with
  | .hexString h =>
      let (d, st') := decoderProp res st
      .ok (d.decode_hexstring h, st')
  | .pdfString l =>
      let (d, st') := decoderProp res st
      .ok (d.decode_string l, st')
  | .str l =>
      let (d, st') := decoderProp res st
      .ok (d.decode_string l, st')
  | _ => .error .typeError

/-- The handler signature: resources, the operator name, its operand
list and the current state; returns the (possibly rewritten) operand
list and the new state, or the Python exception raised. -/
def Handler : Type :=
  Resources → String → PdfObjs → VState → Except PyErr (PdfObjs × VState)

/-- `on_BT`: error if the bracket-stack top is already a `BT`, else push
the operator. -/
def on_BT : Handler := fun _ nm args st =>
  if mode st = some "BT" then
    .error (.valueError "BT operator without enclosing ET")
  else
    .ok (args, { st with bracket_commands_stack :=
      (nm, args) :: st.bracket_commands_stack })

/-- `on_ET`: error unless the bracket-stack top is a `BT`, else pop. -/
def on_ET : Handler := fun _ _ args st =>
  if mode st ≠ some "BT" then
    .error (.valueError "ET operator without corresponding BT")
  else
    .ok (args, { st with bracket_commands_stack :=
      st.bracket_commands_stack.tail })

/-- `on_Tf`: store the operand list into the graphics-state `Font`. -/
def on_Tf : Handler := fun _ _ args st =>
  .ok (args, { st with Font := args })

/-- `on_Tj`: decode the first operand, append the decoded text to
`canvas.strings`, and replace the operand list with the escaped
literal-string form (`op.args = ["({})".format(pdf_escape_string(s))]`).
An empty operand list is an `IndexError` (`op.args[0]`). -/
def on_Tj : Handler := fun res _ args st =>
  match args with
  | .nil => .error .indexError
  | .cons a _ =>
      match decode_string res a st with
      | .error e => .error e
      | .ok (s, st') =>
          .ok (.cons (.str ("(" ++ pdf_escape_string s ++ ")")) .nil,
               { st' with canvas :=
                 { st'.canvas with strings := st'.canvas.strings ++ [s] } })

/-- `on_apostrophe = on_Tj` — the alias binding in the source class
body. -/
def on_apostrophe : Handler := on_Tj

/-- One element step of the `on_TJ` loop: string-shaped values
(pdfreader `String`/`HexString` instances only — the plain `str`
replacements do not match `isinstance(arr[i], (HexString, String))`) are
decoded, recorded and replaced in place; every other element is left
untouched. -/
def decodeIfString (res : Resources) (a : PdfObj) (st : VState) :
    Except PyErr (PdfObj × VState) :=
  match a with
  | .pdfString _ | .hexString _ =>
      match decode_string res a st with
      | .error e => .error e
      | .ok (s, st') =>
          .ok (.str ("(" ++ pdf_escape_string s ++ ")"),
               { st' with canvas :=
                 { st'.canvas with strings := st'.canvas.strings ++ [s] } })
  | _ => .ok (a, st)

/-- The length of an operand list (used to phrase inductions over
`PdfObjs`, whose mutual recursor the `induction` tactic cannot use
directly). -/
def objsSize : PdfObjs → Nat
  | .nil => 0
  | .cons _ xs => objsSize xs + 1

/-- The element loop of `on_TJ` over the operand array. -/
def tjElems (res : Resources) : PdfObjs → VState → Except PyErr (PdfObjs × VState)
  | .nil, st => .ok (.nil, st)
  | .cons a rest, st =>
      match decodeIfString res a st with
      | .error e => .error e
      | .ok (a', st') =>
          match tjElems res rest st' with
          | .error e => .error e
          | .ok (rest', st'') => .ok (.cons a' rest', st'')

/-- `on_TJ`: walk the array operand, decoding and replacing the
string-shaped elements in place.  An empty operand list is an
`IndexError`; iterating a string finds no string-shaped elements (its
characters are plain one-character strings), so it is a no-op; a
non-sequence operand fails (`len()`), modelled as a `TypeError`. -/
def on_TJ : Handler := fun res _ args st =>
  match args with
  | .nil => .error .indexError
  | .cons a rest =>
      match a with
      | .array xs =>
          match tjElems res xs st with
          | .error e => .error e
          | .ok (xs', st') => .ok (.cons (.array xs') rest, st')
      | .str _ => .ok (args, st)
      | .pdfString _ => .ok (args, st)
      | .hexString _ => .ok (args, st)
      | _ => .error .typeError

/-- `on_quotation = on_TJ` — the alias binding in the source class
body. -/
def on_quotation : Handler := on_TJ

/-- `on_Tstar`: explicitly does nothing. -/
def on_Tstar : Handler := fun _ _ args st => .ok (args, st)

/-- The name of the apostrophe operator (one apostrophe character). -/
def apostropheOp : String := String.singleton (Char.ofNat 39)

/-- The name of the quotation operator. -/
def quotationOp : String := "\""

/-- `operators_aliases` from the source class body: the apostrophe,
quotation and `T*` operator names map to the method-name-safe aliases
`apostrophe`, `quotation` and `Tstar`. -/
def operators_aliases (n : String) : String :=
  if n = apostropheOp then "apostrophe"
  else if n = quotationOp then "quotation"
  else if n = "T*" then "Tstar"
  else n

/-- Modelled from the spec: the operator dispatch table of the viewer
loop ("each operator name is routed to a handler; operators with no
specific handler fall through to default handling").  The handlers are
exactly the `on_<name>` methods of `TextOperatorsMixin` (the scope of
this embedding is the `FormViewer` variant, which adds no further
handlers). -/
def handlerFor : String → Option Handler
  | "BT" => some on_BT
  | "ET" => some on_ET
  | "Tf" => some on_Tf
  | "Tj" => some on_Tj
  | "apostrophe" => some on_apostrophe
  | "TJ" => some on_TJ
  | "quotation" => some on_quotation
  | "Tstar" => some on_Tstar
  | _ => none

/-- `after_handler`: serialize the (possibly handler-rewritten) object
and append it to the reconstructed-text buffer.  A serialization failure
is the fatal `ValueError` of `object_to_string`. -/
def after_handler (obj : PdfObj) (st : VState) : Except PyErr VState :=
  match object_to_string obj with
  | .error e => .error e
  | .ok s =>
      .ok { st with canvas :=
        { st.canvas with text_content := st.canvas.text_content ++ s } }

/-- `on_inline_image`: append the image object, unmodified, to the
inline-image list. -/
def on_inline_image (entries : PdfKVs) (payload : List Nat) (st : VState) : VState :=
  { st with canvas :=
    { st.canvas with inline_images := st.canvas.inline_images ++ [(entries, payload)] } }

/-- One item of a parsed content stream: an operator or an inline
image (the two object kinds the content parser yields). -/
inductive ContentItem where
  | oper (nm : String) (args : PdfObjs)
  | image (entries : PdfKVs) (payload : List Nat)

/-- Modelled from the spec: one step of the viewer loop — route the
operator to its handler through the alias table (no handler: default
handling), then record the object in the reconstructed-text buffer.  An
exception raised by the handler aborts the step before the recording,
as in the source (`after_handler` is a separate later call). -/
def interpretItem (res : Resources) : ContentItem → VState → Except PyErr VState
  | .oper nm args, st =>
      match handlerFor (operators_aliases nm) with
      | some h =>
          match h res nm args st with
          | .error e => .error e
          | .ok (args', st') => after_handler (.operator nm args') st'
      | none => after_handler (.operator nm args) st
  | .image entries payload, st =>
      after_handler (.inlineImage entries payload) (on_inline_image entries payload st)

/-- Modelled from the spec: the viewer loop over a parsed content
stream.  The first exception stops the run; the state already built —
in particular the canvas content of the operators already processed —
is returned alongside the exception. -/
def runItems (res : Resources) : List ContentItem → VState → VState × Option PyErr
  | [], st => (st, none)
  | it :: rest, st =>
      match interpretItem res it st with
      | .ok st' => runItems res rest st'
      | .error e => (st, some e)

end Viewer

/-! ## Claim statements and instrumentation predicates -/

/-- The property claimed by C2: the filter entry point returns normally
on every input. -/
def DecodeNeverRaises : Prop :=
  ∀ (data : List Nat) (params : Lzw.FilterParams),
    ∃ out, Lzw.decode data params = .ok out

/-- The property claimed by C5: at every codepoint emission of the Bit
Unpacker (seeded, as the pipeline seeds it, with the initial codebook
size 258) that is not preceded by any reset — no CLEAR or END-OF-INFO
among the emissions up to and including it — the code width in effect
is at most 12 bits. -/
def WidthCappedClaim : Prop :=
  ∀ (bs : List Nat) (i : Nat) (e : Lzw.UEntry),
    (Lzw.unpackTrace 258 bs).get? i = some e →
    (∀ j e', j ≤ i → (Lzw.unpackTrace 258 bs).get? j = some e' →
      e'.cp ≠ Lzw.CLEAR_CODE ∧ e'.cp ≠ Lzw.END_OF_INFO_CODE) →
    e.width ≤ 12

/-- Whether an emitted codepoint is a non-control codepoint (neither
CLEAR nor END-OF-INFO). -/
def Lzw.noCtrl (e : Lzw.UEntry) : Bool :=
  (e.cp != Lzw.CLEAR_CODE) && (e.cp != Lzw.END_OF_INFO_CODE)

/-- One codebook-size/width update of the unpacker at a non-control
emission: the size counter grows by one and the width catches up. -/
def Lzw.zstep (p : Nat × Nat) : Nat × Nat :=
  (p.1 + 1, Lzw.growWidth (p.1 + 1) p.2)

/-- The size/width pair after `k` successive non-control emissions. -/
def Lzw.ziter : Nat → Nat × Nat → Nat × Nat
  | 0, p => p
  | k + 1, p => Lzw.ziter k (Lzw.zstep p)

/-- The number of input bits consumed by `k` successive non-control
emissions starting from the size/width pair `p`. -/
def Lzw.zbits : Nat → Nat × Nat → Nat
  | 0, _ => 0
  | k + 1, p => p.2 + Lzw.zbits k (Lzw.zstep p)

/-- The width invariant of the unpacker loop as instantiated by the
pipeline (initial codebook size 258, minimum width 9): the tracked
codebook size is 258 plus the emissions since the last reset, and the
width exceeds 12 only once the tracked size has reached
`2 ^ (width - 1)`. -/
def Lzw.WInv (s : Lzw.UnpackState) : Prop :=
  s.initial = 258 ∧ s.minwidth = 9 ∧
  s.codesize = 258 + s.sinceReset ∧
  (s.pointwidth ≤ 12 ∨ 2 ^ (s.pointwidth - 1) ≤ s.codesize)

/-- The property claimed by C10: interpreting the apostrophe operator is
indistinguishable from interpreting `Tj` with the same operands, and
likewise the quotation operator and `TJ` — identical canvas and state
changes. -/
def ShowTextAliasClaim : Prop :=
  (∀ (res : Viewer.Resources) (args : Viewer.PdfObjs) (st : Viewer.VState),
    Viewer.interpretItem res (.oper Viewer.apostropheOp args) st =
      Viewer.interpretItem res (.oper "Tj" args) st) ∧
  (∀ (res : Viewer.Resources) (args : Viewer.PdfObjs) (st : Viewer.VState),
    Viewer.interpretItem res (.oper Viewer.quotationOp args) st =
      Viewer.interpretItem res (.oper "TJ" args) st)

/-- Erase the reconstructed-text buffer of an interpretation result
(used to state what the apostrophe/quotation aliases do and do not
share with `Tj`/`TJ`). -/
def eraseText (r : Except PyErr Viewer.VState) : Except PyErr Viewer.VState :=
  r.map fun st => { st with canvas := { st.canvas with text_content := "" } }

/-- The cache invariant of the interpreter: the number of cache-miss
resolutions equals the cache population, cache keys are distinct, and
the cached names are exactly the font names the `decoder` property has
been asked for. -/
def CacheInv (st : Viewer.VState) : Prop :=
  st.constructions = st.decoders.length ∧
  (st.decoders.map Prod.fst).Nodup ∧
  ∀ nm, nm ∈ st.decoders.map Prod.fst ↔ nm ∈ st.namesUsed

/-! ## Derived lemmas about the LZW embedding -/

namespace Lzw

/-- Sanity: the `BitUnpacker.unpack` doctest — with initial codebook size
258, unpacking `[0x00, 0xC0, 0x40]` yields `[1, 257]`. -/
theorem unpack_doctest : unpack 258 [0x00, 0xC0, 0x40] = [1, 257] := by decide

/-- Splitting a `Decoder.decode` run at a list append. -/
theorem decodeList_append (xs ys : List Nat) (st : DecState) :
    decodeList (xs ++ ys) st =
      (match decodeList xs st with
       | .error e => .error e
       | .ok (a, st1) =>
           match decodeList ys st1 with
           | .error e => .error e
           | .ok (b, st2) => .ok (a ++ b, st2)) := by
  induction xs generalizing st with
  | nil =>
      simp only [List.nil_append, decodeList]
      cases h : decodeList ys st with
      | error e => rfl
      | ok r => cases r; simp
  | cons cp cps ih =>
      simp only [List.cons_append, decodeList]
      cases h : decodeCodepoint st cp with
      | error e => rfl
      | ok r =>
          cases r with
          | mk a st1 =>
              dsimp only
              rw [List.append_eq, ih st1]
              cases h2 : decodeList cps st1 with
              | error e => rfl
              | ok r2 =>
                  cases r2 with
                  | mk b st2 =>
                      dsimp only
                      cases h3 : decodeList ys st2 with
                      | error e => rfl
                      | ok r3 =>
                          cases r3 with
                          | mk c st3 => simp [List.append_assoc]

/-- Every exception `Decoder._decode_codepoint` can raise is either the
END-OF-INFO `ValueError` or the `TypeError` from `None + b""`. -/
theorem decodeCodepoint_error_cases (st : DecState) (cp : Nat) (e : PyErr)
    (h : decodeCodepoint st cp = .error e) :
    e = .valueError eoiMsg ∨ e = .typeError := by
  unfold decodeCodepoint at h
  split at h
  · exact absurd h (by simp)
  · split at h
    · left; cases h; rfl
    · cases hb : st.codebook.get? cp with
      | some r => rw [hb] at h; simp at h
      | none =>
          rw [hb] at h
          cases hp : st.prev with
          | none => rw [hp] at h; right; cases h; rfl
          | some p => rw [hp] at h; simp at h

/-- Every exception `Decoder.decode` can raise is either the END-OF-INFO
`ValueError` or the `TypeError`. -/
theorem decodeList_error_cases (cps : List Nat) (st : DecState) (e : PyErr)
    (h : decodeList cps st = .error e) :
    e = .valueError eoiMsg ∨ e = .typeError := by
  induction cps generalizing st with
  | nil => simp [decodeList] at h
  | cons cp cps ih =>
      simp only [decodeList] at h
      split at h
      · cases h
        exact decodeCodepoint_error_cases st cp e (by assumption)
      · split at h
        · cases h
          exact ih _ (by assumption)
        · simp at h

/-- After a successful non-control `_decode_codepoint`, the previous
output is set; after CLEAR the state is the cleared state; the codebook
grows by one exactly when a previous output existed. -/
theorem decodeCodepoint_ok_cases (st : DecState) (cp : Nat) (r : List Nat) (st' : DecState)
    (h : decodeCodepoint st cp = .ok (r, st')) :
    (cp = CLEAR_CODE ∧ st' = clearCodes) ∨
    (cp ≠ CLEAR_CODE ∧ cp ≠ END_OF_INFO_CODE ∧ st'.prev = some r ∧
      st'.code_size = (if st.prev = none then st.code_size else st.code_size + 1)) := by
  unfold decodeCodepoint at h
  split at h
  · left
    refine ⟨by assumption, ?_⟩
    cases h; rfl
  · split at h
    · exact absurd h (by simp)
    · right
      refine ⟨by assumption, by assumption, ?_⟩
      split at h
      · rename_i ret hb
        cases hp : st.prev with
        | none =>
            rw [hp] at h
            simp only [] at h
            cases h
            simp only [hp, if_pos rfl]
            exact ⟨trivial, rfl⟩
        | some p =>
            rw [hp] at h
            simp only [] at h
            cases h
            simp only [hp, if_neg (by simp : ¬ (some p = none))]
            exact ⟨trivial, by simp [DecState.code_size]⟩
      · split at h
        · simp at h
        · rename_i wit p hp
          cases h
          simp only [hp, if_neg (by simp : ¬ (some p = none))]
          exact ⟨trivial, by simp [DecState.code_size]⟩

/-- The codebook of a just-cleared decoder has 258 entries. -/
theorem clearCodes_size : clearCodes.code_size = 258 := by decide

/-- Whenever the decoder has no remembered previous output, its codebook
is in the initial 258-entry state (size-wise). -/
theorem decodeList_prev_none_size (cps : List Nat) (st0 : DecState) (out : List Nat)
    (st : DecState)
    (h0 : st0.prev = none → st0.code_size = 258)
    (h : decodeList cps st0 = .ok (out, st)) :
    st.prev = none → st.code_size = 258 := by
  induction cps generalizing st0 out with
  | nil =>
      simp only [decodeList] at h
      cases h
      exact h0
  | cons cp cps ih =>
      simp only [decodeList] at h
      split at h
      · simp at h
      · rename_i a st1 h1
        split at h
        · simp at h
        · rename_i b st2 h2
          simp only [Except.ok.injEq, Prod.mk.injEq] at h
          obtain ⟨-, rfl⟩ := h
          refine ih st1 b ?_ h2
          rcases decodeCodepoint_ok_cases st0 cp a st1 h1 with
            ⟨-, rfl⟩ | ⟨-, -, hp, -⟩
          · intro _; exact clearCodes_size
          · intro hn; rw [hp] at hn; exact absurd hn (by simp)

/-- The previous-output register is empty exactly after processing
nothing or after a CLEAR. -/
theorem decodeList_prev_none_iff (cps : List Nat) (st0 : DecState) (out : List Nat)
    (st : DecState) (cp : Nat)
    (h : decodeList (cps ++ [cp]) st0 = .ok (out, st)) :
    st.prev = none ↔ cp = CLEAR_CODE := by
  rw [decodeList_append] at h
  split at h
  · simp at h
  · rename_i a st1 h1
    split at h
    · simp at h
    · rename_i b st2 h2
      simp only [Except.ok.injEq, Prod.mk.injEq] at h
      obtain ⟨-, rfl⟩ := h
      simp only [decodeList] at h2
      split at h2
      · simp at h2
      · rename_i c st3 h3
        simp only [Except.ok.injEq, Prod.mk.injEq] at h2
        obtain ⟨-, rfl⟩ := h2
        rcases decodeCodepoint_ok_cases st1 cp c _ h3 with
          ⟨hcp, heq⟩ | ⟨hcp, -, hp, -⟩
        · rw [heq]
          simp [hcp, clearCodes]
        · simp [hp, hcp]


end Lzw

/-! ## Claims C1 to C4 -/

/-- C1: the spec claims that END-OF-INFO codepoints emitted by the Bit
Unpacker are handled upstream of the Codebook Decoder by the composed
pipeline, which would decode the non-control codepoints normally.  The
code does not do this: `ByteDecoder.decodefrombytes` feeds the unpacked
codepoints, END-OF-INFO included, straight into `Decoder.decode`.  On
the bytes `00 C0 40`, whose unpacked codepoint sequence is `[1, 257]`
(the unpacker's own doctest), the decoder trips its explicit END-OF-INFO
`ValueError`; the filter entry point then degrades the whole stream to
empty bytes, although decoding the non-control codepoints would yield
the byte `01`. -/
theorem c1_eoi_reaches_decoder :
    Lzw.END_OF_INFO_CODE ∈ Lzw.unpack Lzw.initialCodeSize [0x00, 0xC0, 0x40] ∧
    Lzw.decompress [0x00, 0xC0, 0x40] = .error (.valueError Lzw.eoiMsg) ∧
    (Lzw.decodeList
        ((Lzw.unpack Lzw.initialCodeSize [0x00, 0xC0, 0x40]).filter
          (fun cp => decide (cp ≠ Lzw.END_OF_INFO_CODE))) Lzw.clearCodes).map Prod.fst
      = .ok [1] ∧
    Lzw.decode [0x00, 0xC0, 0x40] ⟨none, none⟩ = .ok [] := by
  refine ⟨?_, by decide, by decide, by decide⟩
  decide

/-- C2 counterexample: on the bytes `81 00` (first unpacked codepoint
258, which is outside the fresh codebook while no previous output
exists) the decoder raises a `TypeError`, which `decode` does not catch
(its `except` clause covers `ValueError` only), so `decode` propagates
an exception to its caller. -/
theorem c2_decode_raises : ¬ DecodeNeverRaises := by
  intro h
  obtain ⟨out, hout⟩ := h [0x81, 0x00] ⟨none, none⟩
  rw [show Lzw.decode [0x81, 0x00] ⟨none, none⟩ = .error .typeError from by decide] at hout
  exact absurd hout (by simp)

/-- C2 amended: `decode` returns normally whenever the internal failure
is a `ValueError` (degrading to empty bytes); the only exception it can
propagate is the `TypeError` raised when a codepoint outside the
codebook is decoded while no previous output exists. -/
theorem c2_decode_raises_only_typeerror (data : List Nat) (params : Lzw.FilterParams) :
    (∃ out, Lzw.decode data params = .ok out) ∨
    Lzw.decode data params = .error .typeError := by
  unfold Lzw.decode Lzw.decodeAttempt
  cases h : Lzw.decompress data with
  | ok d =>
      left
      exact ⟨d, by simp [Lzw.removePredictors]⟩
  | error e =>
      have he : e = .valueError Lzw.eoiMsg ∨ e = .typeError := by
        unfold Lzw.decompress at h
        cases h2 : Lzw.decodeList (Lzw.unpack Lzw.initialCodeSize data) Lzw.clearCodes with
        | ok r => rw [h2] at h; simp [Except.map] at h
        | error e2 =>
            rw [h2] at h
            simp only [Except.map, Except.error.injEq] at h
            subst h
            exact Lzw.decodeList_error_cases _ _ _ h2
      rcases he with rfl | rfl
      · left
        exact ⟨[], rfl⟩
      · right
        rfl

/-- C3: decompressing `39 98 4D A7 03 61 94 40 74 32 9E 0E 90 00` yields
exactly the bytes of `sample text`, both through `decompress` and
through the filter entry point `decode` (with the identity predictor). -/
theorem c3_sample_text :
    Lzw.decompress Lzw.sampleCompressed = .ok Lzw.sampleText ∧
    Lzw.decode Lzw.sampleCompressed ⟨some 1, none⟩ = .ok Lzw.sampleText := by
  constructor
  · decide
  · decide

/-- C4: decoding `[103, 97, 98, 98, 97, 32, 258, 260, 262, 121, 111,
263, 259, 261, 256]` through a fresh codebook decoder yields exactly the
bytes of `gabba gabba yo gabba`. -/
theorem c4_gabba :
    (Lzw.decodeList Lzw.gabbaCodepoints Lzw.clearCodes).map Prod.fst = .ok Lzw.gabbaText := by
  decide

/-- C6: for every non-control codepoint a fresh decoder run decodes
successfully, the codebook size after it is the size before it plus one,
except when the decoder was just reset (at the start of the run — the
constructor runs `_clear_codes` — or right after a CLEAR codepoint),
in which case the size after equals the initial size 258. -/
theorem c6_codebook_growth (cps : List Nat) (i : Nat) (cp : Nat)
    (out out' : List Nat) (st st' : Lzw.DecState)
    (hcp : cps.get? i = some cp)
    (h1 : Lzw.decodeList (cps.take i) Lzw.clearCodes = .ok (out, st))
    (h2 : Lzw.decodeList (cps.take (i + 1)) Lzw.clearCodes = .ok (out', st'))
    (hnc1 : cp ≠ Lzw.CLEAR_CODE) (hnc2 : cp ≠ Lzw.END_OF_INFO_CODE) :
    st'.code_size =
      (if i = 0 ∨ (∃ prior, cps.get? (i - 1) = some prior ∧ prior = Lzw.CLEAR_CODE)
       then 258 else st.code_size + 1) := by
  have hgetElem : cps[i]? = some cp := by rw [← List.get?_eq_getElem?]; exact hcp
  have htake : cps.take (i + 1) = cps.take i ++ [cp] := by
    rw [List.take_succ, hgetElem]
    rfl
  rw [htake, Lzw.decodeList_append, h1] at h2
  simp only [Lzw.decodeList] at h2
  split at h2
  · simp at h2
  · rename_i c st3 h4
    split at h4
    · simp at h4
    · rename_i c2 st4 h5
      simp only [Except.ok.injEq, Prod.mk.injEq] at h4
      obtain ⟨-, rfl⟩ := h4
      simp only [Except.ok.injEq, Prod.mk.injEq] at h2
      obtain ⟨-, rfl⟩ := h2
      rcases Lzw.decodeCodepoint_ok_cases st cp c2 _ h5 with
        ⟨hcl, -⟩ | ⟨-, -, -, hsize⟩
      · exact absurd hcl hnc1
      · rw [hsize]
        by_cases hreset : st.prev = none
        · rw [if_pos hreset]
          have hsz := Lzw.decodeList_prev_none_size _ _ _ _
            (fun _ => Lzw.clearCodes_size) h1 hreset
          rw [if_pos ?_]
          · exact hsz
          · cases i with
            | zero => exact Or.inl rfl
            | succ j =>
                right
                have hj : j < cps.length := by
                  by_contra hnot
                  push_neg at hnot
                  rw [List.get?_eq_none.2 (by omega)] at hcp
                  exact absurd hcp (by simp)
                refine ⟨cps.get ⟨j, hj⟩, by simp [List.get?_eq_get hj], ?_⟩
                have htj : cps.take (j + 1) = cps.take j ++ [cps.get ⟨j, hj⟩] := by
                  rw [List.take_succ, show cps[j]? = some (cps.get ⟨j, hj⟩) by
                    rw [← List.get?_eq_getElem?]; exact List.get?_eq_get hj]
                  rfl
                rw [htj] at h1
                exact (Lzw.decodeList_prev_none_iff _ _ _ _ _ h1).1 hreset
        · rw [if_neg hreset, if_neg ?_]
          rintro (rfl | ⟨prior, hprior, rfl⟩)
          · simp only [List.take_zero, Lzw.decodeList, Except.ok.injEq, Prod.mk.injEq] at h1
            obtain ⟨-, rfl⟩ := h1
            exact hreset rfl
          · cases i with
            | zero =>
                simp only [List.take_zero, Lzw.decodeList, Except.ok.injEq,
                  Prod.mk.injEq] at h1
                obtain ⟨-, rfl⟩ := h1
                exact hreset rfl
            | succ j =>
                have hpj : cps[j]? = some Lzw.CLEAR_CODE := by
                  rw [← List.get?_eq_getElem?]
                  simpa using hprior
                have htj : cps.take (j + 1) = cps.take j ++ [Lzw.CLEAR_CODE] := by
                  rw [List.take_succ, hpj]
                  rfl
                rw [htj] at h1
                exact hreset ((Lzw.decodeList_prev_none_iff _ _ _ _ _ h1).2 rfl)

/-- Witness for C6 at a concrete run: in `[103, 97, 256, 99]`, codepoint
97 at index 1 (not after a reset) grows the codebook from 258 to 259,
and codepoint 99 at index 3 (right after the CLEAR at index 2) leaves it
at the initial size 258. -/
theorem c6_codebook_growth_witness :
    ∃ st st' : Lzw.DecState,
      Lzw.decodeList ([103, 97, 256, 99].take 3) Lzw.clearCodes = .ok ([103, 97], st) ∧
      Lzw.decodeList ([103, 97, 256, 99].take 4) Lzw.clearCodes = .ok ([103, 97, 99], st') ∧
      st'.code_size = 258 := by
  obtain ⟨out, st, hst⟩ :
      ∃ out st, Lzw.decodeList ([103, 97, 256, 99].take 3) Lzw.clearCodes = .ok (out, st) ∧
        out = [103, 97] := by
    refine ⟨_, _, rfl, ?_⟩
    decide
  obtain ⟨out', st', hst'⟩ :
      ∃ out' st', Lzw.decodeList ([103, 97, 256, 99].take 4) Lzw.clearCodes = .ok (out', st') ∧
        out' = [103, 97, 99] := by
    refine ⟨_, _, rfl, ?_⟩
    decide
  refine ⟨st, st', hst.2 ▸ hst.1, hst'.2 ▸ hst'.1, ?_⟩
  have := c6_codebook_growth [103, 97, 256, 99] 3 99 out out' st st'
    (by decide) hst.1 hst'.1 (by decide) (by decide)
  rw [this]
  rw [if_pos (Or.inr ⟨256, by decide, rfl⟩)]


/-! ## Derived lemmas about the interpreter embedding -/

namespace Viewer

/-- A successful cache lookup means the name is among the cache keys. -/
theorem findDecoder_some_mem (l : List (Option String × StrDec)) (nm : Option String)
    (d : StrDec) (h : findDecoder l nm = some d) : nm ∈ l.map Prod.fst := by
  induction l with
  | nil => simp [findDecoder] at h
  | cons kv rest ih =>
      cases kv with
      | mk k dv =>
          simp only [findDecoder] at h
          by_cases hk : k = nm
          · simp [hk]
          · rw [if_neg hk] at h
            simp [ih h]

/-- A failed cache lookup means the name is not among the cache keys. -/
theorem findDecoder_none_not_mem (l : List (Option String × StrDec)) (nm : Option String)
    (h : findDecoder l nm = none) : nm ∉ l.map Prod.fst := by
  induction l with
  | nil => simp
  | cons kv rest ih =>
      cases kv with
      | mk k dv =>
          simp only [findDecoder] at h
          by_cases hk : k = nm
          · rw [if_pos hk] at h
            exact absurd h (by simp)
          · rw [if_neg hk] at h
            simp only [List.map_cons, List.mem_cons]
            rintro (rfl | hmem)
            · exact hk rfl
            · exact ih h hmem

/-- The `decoder` property preserves the cache invariant: a hit leaves
the cache alone, a miss adds the one new name and counts one
resolution. -/
theorem decoderProp_cacheInv (res : Resources) (st : VState) (h : CacheInv st) :
    CacheInv (decoderProp res st).2 := by
  obtain ⟨hc, hnd, hiff⟩ := h
  unfold decoderProp
  dsimp only
  split
  · rename_i d hf
    refine ⟨hc, hnd, fun nm => ?_⟩
    dsimp only
    constructor
    · intro hmem
      exact List.mem_append_left _ ((hiff nm).1 hmem)
    · intro hmem
      rcases List.mem_append.1 hmem with hmem | hmem
      · exact (hiff nm).2 hmem
      · have hnm : nm = font_name st := by simpa using hmem
        rw [hnm]
        exact findDecoder_some_mem _ _ _ hf
  · rename_i hf
    have hnotin := findDecoder_none_not_mem _ _ hf
    refine ⟨by simp [hc], ?_, fun nm => ?_⟩
    · simp only [List.map_cons]
      exact List.Nodup.cons hnotin hnd
    · simp only [List.map_cons]
      constructor
      · intro hmem
        rcases List.mem_cons.1 hmem with rfl | hmem
        · exact List.mem_append_right _ (by simp)
        · exact List.mem_append_left _ ((hiff nm).1 hmem)
      · intro hmem
        rcases List.mem_append.1 hmem with hmem | hmem
        · exact List.mem_cons_of_mem _ ((hiff nm).2 hmem)
        · have hnm : nm = font_name st := by simpa using hmem
          rw [hnm]
          exact List.mem_cons_self _ _

/-- `decode_string` touches the cache only through the `decoder`
property. -/
theorem decode_string_cacheInv (res : Resources) (s : PdfObj) (st : VState)
    (t : String) (st' : VState) (h : CacheInv st)
    (hd : decode_string res s st = .ok (t, st')) : CacheInv st' := by
  have hmain := decoderProp_cacheInv res st h
  cases he : decoderProp res st with
  | mk d st1 =>
      rw [he] at hmain
      unfold decode_string at hd
      cases s <;>
        first
        | (rw [he] at hd; cases hd; exact hmain)
        | exact absurd hd (by simp)

/-- One `on_TJ` element step preserves the cache invariant (a record
update of the canvas does not touch the cache fields). -/
theorem decodeIfString_cacheInv (res : Resources) (a : PdfObj) (st : VState)
    (a' : PdfObj) (st' : VState) (h : CacheInv st)
    (hd : decodeIfString res a st = .ok (a', st')) : CacheInv st' := by
  unfold decodeIfString at hd
  split at hd
  next x =>
    cases h2 : decode_string res (.pdfString x) st with
    | error e =>
        rw [h2] at hd
        exact absurd hd (by simp)
    | ok r =>
        cases r with
        | mk t st2 =>
            simp only [h2] at hd
            cases hd
            exact decode_string_cacheInv res _ st t st2 h h2
  next x =>
    cases h2 : decode_string res (.hexString x) st with
    | error e =>
        rw [h2] at hd
        exact absurd hd (by simp)
    | ok r =>
        cases r with
        | mk t st2 =>
            simp only [h2] at hd
            cases hd
            exact decode_string_cacheInv res _ st t st2 h h2
  next =>
    cases hd
    exact h

/-- The `on_TJ` element loop preserves the cache invariant. -/
theorem tjElems_cacheInv (res : Resources) (xs : PdfObjs) (st : VState)
    (xs' : PdfObjs) (st' : VState) (h : CacheInv st)
    (ht : tjElems res xs st = .ok (xs', st')) : CacheInv st' := by
  have H : ∀ (n : Nat) (xs : PdfObjs) (st : VState) (xs' : PdfObjs) (st' : VState),
      objsSize xs = n → CacheInv st → tjElems res xs st = .ok (xs', st') →
      CacheInv st' := by
    intro n
    induction n with
    | zero =>
        intro xs st xs' st' hsz h ht
        cases xs with
        | nil =>
            simp only [tjElems] at ht
            cases ht
            exact h
        | cons a rest => simp [objsSize] at hsz
    | succ k ih =>
        intro xs st xs' st' hsz h ht
        cases xs with
        | nil =>
            simp only [tjElems] at ht
            cases ht
            exact h
        | cons a rest =>
            simp only [tjElems] at ht
            cases h1 : decodeIfString res a st with
            | error e =>
                rw [h1] at ht
                exact absurd ht (by simp)
            | ok r1 =>
                cases r1 with
                | mk a1 st1 =>
                    simp only [h1] at ht
                    cases h2 : tjElems res rest st1 with
                    | error e =>
                        rw [h2] at ht
                        exact absurd ht (by simp)
                    | ok r2 =>
                        cases r2 with
                        | mk rest1 st2 =>
                            rw [h2] at ht
                            cases ht
                            exact ih rest st1 rest1 st'
                              (by simpa [objsSize] using hsz)
                              (decodeIfString_cacheInv res a st a1 st1 h h1) h2
  exact H (objsSize xs) xs st xs' st' rfl h ht

/-- `after_handler` only appends to the reconstructed text. -/
theorem after_handler_cacheInv (obj : PdfObj) (st : VState) (st' : VState)
    (h : CacheInv st) (ha : after_handler obj st = .ok st') : CacheInv st' := by
  unfold after_handler at ha
  split at ha
  · exact absurd ha (by simp)
  · cases ha
    exact h

/-- Every handler of the dispatch table preserves the cache invariant:
only the show-text handlers touch the cache, and they do so only through
the `decoder` property. -/
theorem handler_cacheInv (hfun : Handler)
    (hmem : hfun = on_BT ∨ hfun = on_ET ∨ hfun = on_Tf ∨ hfun = on_Tj ∨
      hfun = on_apostrophe ∨ hfun = on_TJ ∨ hfun = on_quotation ∨ hfun = on_Tstar)
    (res : Resources) (nm : String) (args : PdfObjs) (st : VState)
    (args' : PdfObjs) (st' : VState) (h : CacheInv st)
    (hr : hfun res nm args st = .ok (args', st')) : CacheInv st' := by
  have hTj : on_Tj res nm args st = .ok (args', st') → CacheInv st' := by
    clear hr hmem
    intro hq
    unfold on_Tj at hq
    split at hq
    next => exact absurd hq (by simp)
    next a rest =>
      cases hd : decode_string res a st with
      | error e =>
          rw [hd] at hq
          exact absurd hq (by simp)
      | ok r =>
          cases r with
          | mk s2 st2 =>
              simp only [hd] at hq
              cases hq
              exact decode_string_cacheInv res a st s2 st2 h hd
  have hTJ : on_TJ res nm args st = .ok (args', st') → CacheInv st' := by
    clear hr hmem
    intro hq
    unfold on_TJ at hq
    split at hq
    next => exact absurd hq (by simp)
    next a rest =>
      split at hq
      next xs =>
        cases ht : tjElems res xs st with
        | error e =>
            rw [ht] at hq
            exact absurd hq (by simp)
        | ok r =>
            cases r with
            | mk xs2 st2 =>
                simp only [ht] at hq
                cases hq
                exact tjElems_cacheInv res xs st _ _ h ht
      next => cases hq; exact h
      next => cases hq; exact h
      next => cases hq; exact h
      next => exact absurd hq (by simp)
  rcases hmem with rfl | rfl | rfl | rfl | rfl | rfl | rfl | rfl
  · unfold on_BT at hr
    split at hr
    · exact absurd hr (by simp)
    · cases hr
      exact h
  · unfold on_ET at hr
    split at hr
    · exact absurd hr (by simp)
    · cases hr
      exact h
  · unfold on_Tf at hr
    cases hr
    exact h
  · exact hTj hr
  · exact hTj hr
  · exact hTJ hr
  · exact hTJ hr
  · unfold on_Tstar at hr
    cases hr
    exact h

/-- The dispatch table only ever yields the eight mixin handlers. -/
theorem handlerFor_cases (x : String) (hfun : Handler)
    (h : handlerFor x = some hfun) :
    hfun = on_BT ∨ hfun = on_ET ∨ hfun = on_Tf ∨ hfun = on_Tj ∨
      hfun = on_apostrophe ∨ hfun = on_TJ ∨ hfun = on_quotation ∨ hfun = on_Tstar := by
  unfold handlerFor at h
  split at h <;> first
    | (cases h; tauto)
    | exact absurd h (by simp)

/-- One interpreter step preserves the cache invariant. -/
theorem interpretItem_cacheInv (res : Resources) (it : ContentItem) (st st' : VState)
    (h : CacheInv st) (hi : interpretItem res it st = .ok st') : CacheInv st' := by
  cases it with
  | image entries payload =>
      simp only [interpretItem] at hi
      exact after_handler_cacheInv _ (on_inline_image entries payload st) _ h hi
  | oper nm args =>
      simp only [interpretItem] at hi
      cases hh : handlerFor (operators_aliases nm) with
      | none =>
          rw [hh] at hi
          exact after_handler_cacheInv _ _ _ h hi
      | some hfun =>
          rw [hh] at hi
          cases hr : hfun res nm args st with
          | error e =>
              simp only [hr] at hi
              exact absurd hi (by simp)
          | ok r =>
              cases r with
              | mk args' st1 =>
                  simp only [hr] at hi
                  exact after_handler_cacheInv _ _ _
                    (handler_cacheInv hfun (handlerFor_cases _ _ hh) res nm args st
                      args' st1 h hr) hi

/-- The viewer loop preserves the cache invariant, whether it completes
or stops at an exception. -/
theorem runItems_cacheInv (res : Resources) (items : List ContentItem) (st : VState)
    (h : CacheInv st) : CacheInv (runItems res items st).1 := by
  induction items generalizing st with
  | nil => exact h
  | cons it rest ih =>
      simp only [runItems]
      cases hi : interpretItem res it st with
      | ok st1 => exact ih st1 (interpretItem_cacheInv res it st st1 h hi)
      | error e => exact h

/-- The loop stops at the first exception, returning the state built so
far. -/
theorem runItems_stop (res : Resources) (items : List ContentItem) (st0 : VState)
    (i : Nat) (it : ContentItem) (e : PyErr)
    (hit : items.get? i = some it)
    (hok : (runItems res (items.take i) st0).2 = none)
    (herr : interpretItem res it (runItems res (items.take i) st0).1 = .error e) :
    runItems res items st0 = ((runItems res (items.take i) st0).1, some e) := by
  induction items generalizing i st0 with
  | nil => simp at hit
  | cons x rest ih =>
      cases i with
      | zero =>
          have hx : x = it := by simpa using hit
          subst hx
          have herr2 : interpretItem res x st0 = .error e := herr
          simp only [List.take_zero, runItems] at herr2 ⊢
          rw [herr2]
      | succ j =>
          have hit2 : rest.get? j = some it := by simpa using hit
          rw [List.take_succ_cons] at hok herr ⊢
          cases hx : interpretItem res x st0 with
          | error e2 =>
              simp [runItems, hx] at hok
          | ok st1 =>
              simp only [runItems, hx] at hok herr ⊢
              exact ih st1 j hit2 hok herr

end Viewer

/-! ## Claims C7 to C10 -/

/-- C7: an open-text-object operator raises the nesting error exactly
when the bracket-stack top is already a text-object bracket and
otherwise pushes; a close-text-object operator raises exactly when the
stack top is not a text-object bracket (in particular when the stack is
empty) and otherwise pops; and when a sequence run hits such a nesting
violation, the run stops there with that error and the canvas built by
the previously processed operators is returned unchanged. -/
theorem c7_text_object_nesting :
    (∀ (res : Viewer.Resources) (args : Viewer.PdfObjs) (st : Viewer.VState),
      Viewer.mode st = some "BT" →
      Viewer.interpretItem res (.oper "BT" args) st =
        .error (.valueError "BT operator without enclosing ET")) ∧
    (∀ (res : Viewer.Resources) (args : Viewer.PdfObjs) (st : Viewer.VState) (s : String),
      Viewer.mode st ≠ some "BT" →
      Viewer.object_to_string (.operator "BT" args) = .ok s →
      Viewer.interpretItem res (.oper "BT" args) st =
        .ok { st with
          bracket_commands_stack := ("BT", args) :: st.bracket_commands_stack,
          canvas := { st.canvas with
            text_content := st.canvas.text_content ++ s } }) ∧
    (∀ (res : Viewer.Resources) (args : Viewer.PdfObjs) (st : Viewer.VState),
      Viewer.mode st ≠ some "BT" →
      Viewer.interpretItem res (.oper "ET" args) st =
        .error (.valueError "ET operator without corresponding BT")) ∧
    (∀ (res : Viewer.Resources) (args : Viewer.PdfObjs) (st : Viewer.VState) (s : String),
      Viewer.mode st = some "BT" →
      Viewer.object_to_string (.operator "ET" args) = .ok s →
      Viewer.interpretItem res (.oper "ET" args) st =
        .ok { st with
          bracket_commands_stack := st.bracket_commands_stack.tail,
          canvas := { st.canvas with
            text_content := st.canvas.text_content ++ s } }) ∧
    (∀ (res : Viewer.Resources) (items : List Viewer.ContentItem) (st0 : Viewer.VState)
        (i : Nat) (args : Viewer.PdfObjs),
      items.get? i = some (.oper "BT" args) →
      (Viewer.runItems res (items.take i) st0).2 = none →
      Viewer.mode (Viewer.runItems res (items.take i) st0).1 = some "BT" →
      Viewer.runItems res items st0 =
        ((Viewer.runItems res (items.take i) st0).1,
         some (.valueError "BT operator without enclosing ET")) ∧
      (Viewer.runItems res items st0).1.canvas =
        (Viewer.runItems res (items.take i) st0).1.canvas) ∧
    (∀ (res : Viewer.Resources) (items : List Viewer.ContentItem) (st0 : Viewer.VState)
        (i : Nat) (args : Viewer.PdfObjs),
      items.get? i = some (.oper "ET" args) →
      (Viewer.runItems res (items.take i) st0).2 = none →
      Viewer.mode (Viewer.runItems res (items.take i) st0).1 ≠ some "BT" →
      Viewer.runItems res items st0 =
        ((Viewer.runItems res (items.take i) st0).1,
         some (.valueError "ET operator without corresponding BT")) ∧
      (Viewer.runItems res items st0).1.canvas =
        (Viewer.runItems res (items.take i) st0).1.canvas) := by
  have hBTe : ∀ (res : Viewer.Resources) (args : Viewer.PdfObjs) (st : Viewer.VState),
      Viewer.mode st = some "BT" →
      Viewer.interpretItem res (.oper "BT" args) st =
        .error (.valueError "BT operator without enclosing ET") := by
    intro res args st h
    simp only [Viewer.interpretItem,
      show Viewer.operators_aliases "BT" = "BT" from rfl, Viewer.handlerFor,
      Viewer.on_BT]
    rw [if_pos h]
  have hETe : ∀ (res : Viewer.Resources) (args : Viewer.PdfObjs) (st : Viewer.VState),
      Viewer.mode st ≠ some "BT" →
      Viewer.interpretItem res (.oper "ET" args) st =
        .error (.valueError "ET operator without corresponding BT") := by
    intro res args st h
    simp only [Viewer.interpretItem,
      show Viewer.operators_aliases "ET" = "ET" from rfl, Viewer.handlerFor,
      Viewer.on_ET]
    rw [if_pos h]
  refine ⟨hBTe, ?_, hETe, ?_, ?_, ?_⟩
  · intro res args st s h hser
    simp only [Viewer.interpretItem,
      show Viewer.operators_aliases "BT" = "BT" from rfl, Viewer.handlerFor,
      Viewer.on_BT]
    rw [if_neg h]
    simp only [Viewer.after_handler, hser]
  · intro res args st s h hser
    simp only [Viewer.interpretItem,
      show Viewer.operators_aliases "ET" = "ET" from rfl, Viewer.handlerFor,
      Viewer.on_ET]
    rw [if_neg (by simp [h])]
    simp only [Viewer.after_handler, hser]
  · intro res items st0 i args hit hok hmode
    have hstop := Viewer.runItems_stop res items st0 i _ _ hit hok
      (hBTe res args _ hmode)
    exact ⟨hstop, by rw [hstop]⟩
  · intro res items st0 i args hit hok hmode
    have hstop := Viewer.runItems_stop res items st0 i _ _ hit hok
      (hETe res args _ hmode)
    exact ⟨hstop, by rw [hstop]⟩

/-- Witness for C7 at a concrete run: in `BT T* ET ET` the fourth
operator closes a text object with an empty bracket stack; the run stops
with the nesting error and the canvas of the first three operators is
returned unchanged. -/
theorem c7_text_object_nesting_witness :
    Viewer.runItems ⟨[]⟩
        [.oper "BT" .nil, .oper "T*" .nil, .oper "ET" .nil, .oper "ET" .nil]
        Viewer.initVState =
      ((Viewer.runItems ⟨[]⟩
          ([.oper "BT" .nil, .oper "T*" .nil, .oper "ET" .nil, .oper "ET" .nil].take 3)
          Viewer.initVState).1,
       some (.valueError "ET operator without corresponding BT")) ∧
    (Viewer.runItems ⟨[]⟩
        [.oper "BT" .nil, .oper "T*" .nil, .oper "ET" .nil, .oper "ET" .nil]
        Viewer.initVState).1.canvas =
      (Viewer.runItems ⟨[]⟩
          ([.oper "BT" .nil, .oper "T*" .nil, .oper "ET" .nil, .oper "ET" .nil].take 3)
          Viewer.initVState).1.canvas :=
  c7_text_object_nesting.2.2.2.2.2 ⟨[]⟩
    [.oper "BT" .nil, .oper "T*" .nil, .oper "ET" .nil, .oper "ET" .nil]
    Viewer.initVState 3 .nil rfl rfl (by decide)

/-- C8: the reconstruction serializer maps each recognized operand
variant exactly as specified — `null`, `true`/`false`, `/`-prefixed
names, verbatim already-escaped strings and numbers, bracketed
space-joined arrays, `<< >>`-wrapped space-joined `/key value` pairs in
insertion order, and newline-prefixed operators — and raises the fatal
`ValueError` on a value outside the recognized variants. -/
theorem c8_serializer :
    Viewer.object_to_string .null = .ok "null" ∧
    Viewer.object_to_string (.boolean true) = .ok "true" ∧
    Viewer.object_to_string (.boolean false) = .ok "false" ∧
    (∀ s, Viewer.object_to_string (.name s) = .ok ("/" ++ s)) ∧
    (∀ s, Viewer.object_to_string (.str s) = .ok s) ∧
    (∀ n : Int, Viewer.object_to_string (.integer n) = .ok (toString n)) ∧
    (∀ s, Viewer.object_to_string (.decimal s) = .ok s) ∧
    (∀ xs parts, Viewer.serializeItems xs = .ok parts →
      Viewer.object_to_string (.array xs) =
        .ok ("[" ++ String.intercalate " " parts ++ "]")) ∧
    (∀ k v kvs s rest, Viewer.object_to_string v = .ok s →
      Viewer.serializeEntries (fun _ => true) kvs = .ok rest →
      Viewer.serializeEntries (fun _ => true) (.cons k v kvs) =
        .ok (("/" ++ k ++ " " ++ s) :: rest)) ∧
    (∀ kvs parts, Viewer.serializeEntries (fun _ => true) kvs = .ok parts →
      Viewer.object_to_string (.dict kvs) =
        .ok ("<<" ++ String.intercalate " " parts ++ ">>")) ∧
    (∀ nm args parts, Viewer.serializeItems args = .ok parts →
      Viewer.object_to_string (.operator nm args) =
        .ok ("\n" ++ String.intercalate " " parts ++ " " ++ nm)) ∧
    Viewer.object_to_string .other = .error (.valueError Viewer.unexpectedMsg) := by
  refine ⟨rfl, rfl, rfl, fun s => rfl, fun s => rfl, fun n => rfl, fun s => rfl,
    ?_, ?_, ?_, ?_, rfl⟩
  · intro xs parts h
    simp only [Viewer.object_to_string, h]
  · intro k v kvs s rest hv hrest
    simp only [Viewer.serializeEntries, hv, hrest]
    simp
  · intro kvs parts h
    simp only [Viewer.object_to_string, h]
  · intro nm args parts h
    simp only [Viewer.object_to_string, h]

/-- Witness for C8: the conditional serializer equations at concrete
inputs. -/
theorem c8_serializer_witness :
    Viewer.object_to_string (.array (.cons .null (.cons (.boolean true) .nil))) =
      .ok "[null true]" ∧
    Viewer.object_to_string (.dict (.cons "K" (.integer (-7)) .nil)) =
      .ok "<</K -7>>" ∧
    Viewer.object_to_string (.operator "Tj" (.cons (.str "(a)") .nil)) =
      .ok "\n(a) Tj" := by
  obtain ⟨-, -, -, -, -, -, -, harr, hpair, hdict, hop, -⟩ := c8_serializer
  refine ⟨?_, ?_, ?_⟩
  · have h := harr (.cons .null (.cons (.boolean true) .nil)) ["null", "true"] rfl
    rw [h]
    rfl
  · have h := hdict (.cons "K" (.integer (-7)) .nil) ["/K -7"]
      (hpair "K" (.integer (-7)) .nil "-7" [] rfl rfl)
    rw [h]
    rfl
  · have h := hop "Tj" (.cons (.str "(a)") .nil) ["(a)"] rfl
    rw [h]
    rfl

/-- C9: across one interpreter run, the number of cache-miss decoder
resolutions — each of which binds one string-decoder instance for the
looked-up font name (a `Decoder(font)` when the resource environment has
the font, the shared default decoder otherwise) — equals the number of
distinct font names the show-text handlers asked the `decoder` property
for, regardless of how many show-text operators used each font. -/
theorem c9_decoder_cache (res : Viewer.Resources) (items : List Viewer.ContentItem) :
    ((Viewer.runItems res items Viewer.initVState).1).constructions =
      ((Viewer.runItems res items Viewer.initVState).1).namesUsed.toFinset.card := by
  have hinit : CacheInv Viewer.initVState := by
    refine ⟨rfl, List.nodup_nil, fun nm => ?_⟩
    simp [Viewer.initVState]
  obtain ⟨hc, hnd, hiff⟩ := Viewer.runItems_cacheInv res items Viewer.initVState hinit
  rw [hc]
  have hlen : ((Viewer.runItems res items Viewer.initVState).1).decoders.length =
      (((Viewer.runItems res items Viewer.initVState).1).decoders.map Prod.fst).length := by
    simp
  rw [hlen, ← List.toFinset_card_of_nodup hnd]
  congr 1
  ext nm
  simp only [List.mem_toFinset]
  exact hiff nm

/-- C10 counterexample: on the same operands and the same fresh state,
the apostrophe operator and `Tj` leave different canvases — the
reconstructed text records the operator name itself (`... '` versus
`... Tj`) — so interpreting the apostrophe is not identical to
interpreting `Tj`. -/
theorem c10_alias_claim_false : ¬ ShowTextAliasClaim := by
  intro h
  have h1 := h.1 ⟨[]⟩ (.cons (.pdfString "hi") .nil) Viewer.initVState
  have h2 : (Viewer.interpretItem ⟨[]⟩
        (.oper Viewer.apostropheOp (.cons (.pdfString "hi") .nil))
        Viewer.initVState).map (fun st => st.canvas.text_content) =
      (Viewer.interpretItem ⟨[]⟩
        (.oper "Tj" (.cons (.pdfString "hi") .nil))
        Viewer.initVState).map (fun st => st.canvas.text_content) := by
    rw [h1]
  exact absurd h2 (by decide)

/-- C10 amended: the apostrophe operator is dispatched to exactly the
`Tj` handler and the quotation operator to exactly the `TJ` handler, so
interpreting them produces identical decoded strings, graphics state,
bracket stack and decoder cache — the canvases can differ only in the
reconstructed-text buffer, which serializes the operator name itself. -/
theorem c10_alias_same_handler :
    Viewer.handlerFor (Viewer.operators_aliases Viewer.apostropheOp) =
      some Viewer.on_Tj ∧
    Viewer.handlerFor (Viewer.operators_aliases Viewer.quotationOp) =
      some Viewer.on_TJ ∧
    (∀ (res : Viewer.Resources) (args : Viewer.PdfObjs) (st : Viewer.VState),
      eraseText (Viewer.interpretItem res (.oper Viewer.apostropheOp args) st) =
        eraseText (Viewer.interpretItem res (.oper "Tj" args) st)) ∧
    (∀ (res : Viewer.Resources) (args : Viewer.PdfObjs) (st : Viewer.VState),
      eraseText (Viewer.interpretItem res (.oper Viewer.quotationOp args) st) =
        eraseText (Viewer.interpretItem res (.oper "TJ" args) st)) := by
  refine ⟨rfl, rfl, ?_, ?_⟩
  · intro res args st
    simp only [Viewer.interpretItem,
      show Viewer.operators_aliases Viewer.apostropheOp = "apostrophe" from rfl,
      show Viewer.operators_aliases "Tj" = "Tj" from rfl,
      Viewer.handlerFor, Viewer.on_apostrophe]
    have hsame : Viewer.on_Tj res Viewer.apostropheOp args st =
        Viewer.on_Tj res "Tj" args st := rfl
    rw [hsame]
    cases h : Viewer.on_Tj res "Tj" args st with
    | error e => rfl
    | ok r =>
        cases r with
        | mk args' st' =>
            simp only [Viewer.after_handler, Viewer.object_to_string]
            cases h2 : Viewer.serializeItems args' with
            | error e => rfl
            | ok parts => rfl
  · intro res args st
    simp only [Viewer.interpretItem,
      show Viewer.operators_aliases Viewer.quotationOp = "quotation" from rfl,
      show Viewer.operators_aliases "TJ" = "TJ" from rfl,
      Viewer.handlerFor, Viewer.on_quotation]
    have hsame : Viewer.on_TJ res Viewer.quotationOp args st =
        Viewer.on_TJ res "TJ" args st := rfl
    rw [hsame]
    cases h : Viewer.on_TJ res "TJ" args st with
    | error e => rfl
    | ok r =>
        cases r with
        | mk args' st' =>
            simp only [Viewer.after_handler, Viewer.object_to_string]
            cases h2 : Viewer.serializeItems args' with
            | error e => rfl
            | ok parts => rfl

/-! ## Claim C5: width growth of the bit unpacker -/

namespace Lzw

/-- Characterization of the fuelled width-growth loop, given enough
fuel: the result is at least the starting width, addresses the codebook
size, and exceeds the starting width only when forced. -/
theorem growWidthAux_spec (fuel cs w : Nat) (h : cs < 2 ^ (w + fuel)) :
    w ≤ growWidthAux fuel cs w ∧ cs < 2 ^ growWidthAux fuel cs w ∧
      (growWidthAux fuel cs w = w ∨ 2 ^ (growWidthAux fuel cs w - 1) ≤ cs) := by
  induction fuel generalizing w with
  | zero =>
      simp only [growWidthAux]
      exact ⟨le_refl w, by simpa using h, Or.inl (by trivial)⟩
  | succ fuel ih =>
      simp only [growWidthAux]
      by_cases hle : 2 ^ w ≤ cs
      · rw [if_pos hle]
        have h2 : cs < 2 ^ (w + 1 + fuel) := by
          have : w + Nat.succ fuel = w + 1 + fuel := by omega
          rw [← this]
          exact h
        obtain ⟨h1, h2, h3⟩ := ih (w + 1) h2
        refine ⟨by omega, h2, ?_⟩
        rcases h3 with h3 | h3
        · right
          rw [h3]
          simpa using hle
        · exact Or.inr h3
      · rw [if_neg hle]
        push_neg at hle
        exact ⟨le_refl w, hle, Or.inl (by trivial)⟩

/-- The `growWidth` fuel (`codesize + 1`) is always sufficient. -/
theorem growWidth_spec (cs w : Nat) :
    w ≤ growWidth cs w ∧ cs < 2 ^ growWidth cs w ∧
      (growWidth cs w = w ∨ 2 ^ (growWidth cs w - 1) ≤ cs) := by
  refine growWidthAux_spec (cs + 1) cs w ?_
  calc cs < 2 ^ cs := Nat.lt_two_pow cs
    _ ≤ 2 ^ (w + (cs + 1)) := Nat.pow_le_pow_right (by omega) (by omega)

/-- Exhaustive description of one unpacker loop iteration: either no
codepoint is emitted and the counters are untouched, or a codepoint is
emitted carrying the pre-state width and reset counter, with the
counters updated by the non-control or the control rule. -/
theorem unpackStepBit_cases (s : UnpackState) (b : Bool) (s' : UnpackState)
    (oe : Option UEntry) (h : unpackStepBit s b = (s', oe)) :
    (oe = none ∧ s'.sinceReset = s.sinceReset ∧ s'.codesize = s.codesize ∧
      s'.pointwidth = s.pointwidth ∧ s'.initial = s.initial ∧ s'.minwidth = s.minwidth) ∨
    (∃ e, oe = some e ∧ e.width = s.pointwidth ∧ e.since = s.sinceReset ∧
      s'.initial = s.initial ∧ s'.minwidth = s.minwidth ∧
      ((noCtrl e = true ∧ s'.codesize = s.codesize + 1 ∧
        s'.pointwidth = growWidth (s.codesize + 1) s.pointwidth ∧
        s'.sinceReset = s.sinceReset + 1) ∨
       (noCtrl e = false ∧ s'.codesize = s.initial ∧ s'.pointwidth = s.minwidth ∧
        s'.sinceReset = 0))) := by
  unfold unpackStepBit at h
  split at h
  · cases h
    exact Or.inl ⟨rfl, rfl, rfl, rfl, rfl, rfl⟩
  · dsimp only at h
    split at h
    · rename_i hlen
      split at h
      · rename_i hctrl
        cases h
        refine Or.inr ⟨_, rfl, rfl, rfl, rfl, rfl, Or.inr ⟨?_, rfl, rfl, rfl⟩⟩
        simp only [noCtrl]
        rcases hctrl with hc | hc <;> simp [hc]
      · rename_i hctrl
        push_neg at hctrl
        cases h
        refine Or.inr ⟨_, rfl, rfl, rfl, rfl, rfl, Or.inl ⟨?_, rfl, rfl, rfl⟩⟩
        simp only [noCtrl]
        simp [hctrl.1, hctrl.2]
    · cases h
      exact Or.inl ⟨rfl, rfl, rfl, rfl, rfl, rfl⟩

/-- The width invariant is preserved by one loop iteration, and any
codepoint emitted with width above 12 bits has seen at least 3838
non-control emissions since the last reset. -/
theorem unpackStepBit_winv (s : UnpackState) (b : Bool) (s' : UnpackState)
    (oe : Option UEntry) (hw : WInv s) (h : unpackStepBit s b = (s', oe)) :
    WInv s' ∧ (∀ e, oe = some e → 12 < e.width → 3838 ≤ e.since) := by
  obtain ⟨hi, hm, hcs, hdisj⟩ := hw
  have hemit : ∀ e : UEntry, e.width = s.pointwidth → e.since = s.sinceReset →
      12 < e.width → 3838 ≤ e.since := by
    intro e hwidth hsince hgt
    rw [hwidth] at hgt
    rcases hdisj with hle | hpow
    · omega
    · have h1 : (2 : Nat) ^ 12 ≤ 2 ^ (s.pointwidth - 1) :=
        Nat.pow_le_pow_right (by omega) (by omega)
      have h2 : (2 : Nat) ^ 12 = 4096 := by norm_num
      rw [hsince]
      omega
  rcases unpackStepBit_cases s b s' oe h with
    ⟨hn, h1, h2, h3, h4, h5⟩ | ⟨e, he, hwidth, hsince, h4, h5, hupd⟩
  · exact ⟨⟨h4 ▸ hi, h5 ▸ hm, by rw [h2, h1]; exact hcs, by rw [h3, h2]; exact hdisj⟩,
      fun e hoe => by rw [hn] at hoe; exact absurd hoe (by simp)⟩
  · refine ⟨⟨h4 ▸ hi, h5 ▸ hm, ?_, ?_⟩, ?_⟩
    · rcases hupd with ⟨-, hc, -, hr⟩ | ⟨-, hc, -, hr⟩
      · rw [hc, hr]
        omega
      · rw [hc, hr, hi]
    · rcases hupd with ⟨-, hc, hp, -⟩ | ⟨-, -, hp, -⟩
      · rw [hp, hc]
        obtain ⟨hg1, hg2, hg3⟩ := growWidth_spec (s.codesize + 1) s.pointwidth
        rcases hg3 with hg3 | hg3
        · rw [hg3]
          rcases hdisj with hle | hpow
          · exact Or.inl hle
          · right
            calc 2 ^ (s.pointwidth - 1) ≤ s.codesize := hpow
              _ ≤ s.codesize + 1 := by omega
        · exact Or.inr hg3
      · rw [hp, hm]
        exact Or.inl (by omega)
    · intro e2 hoe
      rw [he] at hoe
      cases hoe
      exact hemit _ hwidth hsince

/-- Every codepoint the unpacker emits with a width above 12 bits comes
at least 3838 non-control emissions after the last reset. -/
theorem unpackBits_winv (bs : List Bool) (s : UnpackState) (hw : WInv s) :
    ∀ e ∈ unpackBits bs s, 12 < e.width → 3838 ≤ e.since := by
  induction bs generalizing s with
  | nil => simp [unpackBits]
  | cons b bs ih =>
      intro e he
      simp only [unpackBits] at he
      cases hstep : unpackStepBit s b with
      | mk s' oe =>
          rw [hstep] at he
          obtain ⟨hw', hem⟩ := unpackStepBit_winv s b s' oe hw hstep
          cases oe with
          | none => exact ih s' hw' e he
          | some e0 =>
              simp only [List.mem_cons] at he
              rcases he with rfl | he
              · exact hem e rfl
              · exact ih s' hw' e he

end Lzw

namespace Lzw

/-- Appending iterated updates. -/
theorem ziter_add (a b : Nat) (p : Nat × Nat) :
    ziter (a + b) p = ziter b (ziter a p) := by
  induction a generalizing p with
  | zero => simp [ziter]
  | succ a ih =>
      have : a + 1 + b = (a + b) + 1 := by omega
      rw [this]
      simp only [ziter]
      rw [ih (zstep p)]

/-- Splitting the bit count of iterated updates. -/
theorem zbits_add (a b : Nat) (p : Nat × Nat) :
    zbits (a + b) p = zbits a p + zbits b (ziter a p) := by
  induction a generalizing p with
  | zero => simp [zbits, ziter]
  | succ a ih =>
      have : a + 1 + b = (a + b) + 1 := by omega
      rw [this]
      simp only [zbits, ziter]
      rw [ih (zstep p)]
      omega

/-- One more emission consumes more bits. -/
theorem zbits_le_succ (k : Nat) (p : Nat × Nat) : zbits k p ≤ zbits (k + 1) p := by
  rw [zbits_add k 1 p]
  omega

/-- Bit counts are monotone in the emission count. -/
theorem zbits_mono (a b : Nat) (p : Nat × Nat) (h : a ≤ b) : zbits a p ≤ zbits b p := by
  induction b with
  | zero =>
      have : a = 0 := by omega
      rw [this]
  | succ b ih =>
      by_cases hab : a = b + 1
      · rw [hab]
      · exact le_trans (ih (by omega)) (zbits_le_succ b p)

/-- Widths stay positive along iterated updates. -/
theorem ziter_snd_pos (k : Nat) (p : Nat × Nat) (h : 1 ≤ p.2) :
    1 ≤ (ziter k p).2 := by
  induction k generalizing p with
  | zero => exact h
  | succ k ih =>
      simp only [ziter]
      refine ih (zstep p) ?_
      have := (growWidth_spec (p.1 + 1) p.2).1
      simp only [zstep]
      omega

/-- A list of false bits reads as the integer zero. -/
theorem intfrombits_false (l : List Bool) (h : ∀ b ∈ l, b = false) :
    intfrombits l = 0 := by
  unfold intfrombits
  have hrev : ∀ b ∈ l.reverse, b = false := by
    intro b hb
    exact h b (List.mem_reverse.1 hb)
  have hgen : ∀ (idxs : List Nat), idxs.foldl
      (fun ret bit_index => if l.reverse.getD bit_index false then ret ||| (1 <<< bit_index) else ret) 0 = 0 := by
    intro idxs
    induction idxs with
    | nil => rfl
    | cons i idxs ih =>
        simp only [List.foldl_cons]
        have hfalse : l.reverse.getD i false = false := by
          cases hgi : l.reverse.get? i with
          | none =>
              simp only [List.getD]
              rw [hgi]
              rfl
          | some b =>
              have hb := hrev b (List.get?_mem hgi)
              simp only [List.getD]
              rw [hgi, hb]
              rfl
        rw [hfalse]
        simpa using ih
  exact hgen _

/-- The unpacker on an all-false bit stream, starting from an all-false
partial group: either too few bits remain and nothing more is emitted,
or the group completes, codepoint 0 is emitted with the current width,
and the loop continues on the rest with the non-control update. -/
theorem unpackBits_zero_acc (m : Nat) : ∀ (s : UnpackState),
    s.ignore = 0 → (∀ b ∈ s.bits, b = false) → s.bits.length < s.pointwidth →
    (m + s.bits.length < s.pointwidth ∧ unpackBits (List.replicate m false) s = []) ∨
    (s.pointwidth ≤ m + s.bits.length ∧ ∃ o,
      unpackBits (List.replicate m false) s =
        ⟨0, s.pointwidth, s.sinceReset⟩ ::
          unpackBits (List.replicate (m - (s.pointwidth - s.bits.length)) false)
            { s with bits := [], offset := o, codesize := s.codesize + 1,
                     pointwidth := growWidth (s.codesize + 1) s.pointwidth,
                     sinceReset := s.sinceReset + 1 }) := by
  induction m with
  | zero =>
      intro s hig hfalse hlt
      exact Or.inl ⟨by omega, by simp [unpackBits]⟩
  | succ m ih =>
      intro s hig hfalse hlt
      have hrep : List.replicate (m + 1) false = false :: List.replicate m false := rfl
      rw [hrep]
      have hstep : unpackStepBit s false =
          (if h : s.bits.length + 1 = s.pointwidth then
            ({ s with bits := [], offset := (s.offset + 1) % 8,
                      codesize := s.codesize + 1,
                      pointwidth := growWidth (s.codesize + 1) s.pointwidth,
                      sinceReset := s.sinceReset + 1 },
             some ⟨0, s.pointwidth, s.sinceReset⟩)
          else
            ({ s with bits := s.bits ++ [false], offset := (s.offset + 1) % 8 },
             none)) := by
        unfold unpackStepBit
        rw [if_neg (by omega)]
        dsimp only
        have hlen : (s.bits ++ [false]).length = s.bits.length + 1 := by simp
        by_cases hfull : s.bits.length + 1 = s.pointwidth
        · rw [dif_pos hfull]
          rw [if_pos (by rw [hlen]; exact hfull)]
          have hcp : intfrombits (s.bits ++ [false]) = 0 := by
            refine intfrombits_false _ ?_
            intro b hb
            rcases List.mem_append.1 hb with hb | hb
            · exact hfalse b hb
            · simpa using hb
          rw [hcp]
          rw [if_neg (by simp [CLEAR_CODE, END_OF_INFO_CODE])]
        · rw [dif_neg hfull]
          rw [if_neg (by rw [hlen]; exact hfull)]
      simp only [unpackBits, hstep]
      by_cases hfull : s.bits.length + 1 = s.pointwidth
      · rw [dif_pos hfull]
        refine Or.inr ⟨by omega, (s.offset + 1) % 8, ?_⟩
        have harith : m + 1 - (s.pointwidth - s.bits.length) = m := by omega
        rw [harith]
      · rw [dif_neg hfull]
        have hbits2 : ∀ b ∈ s.bits ++ [false], b = false := by
          intro b hb
          rcases List.mem_append.1 hb with hb | hb
          · exact hfalse b hb
          · simpa using hb
        have hlen2 : (s.bits ++ [false]).length < s.pointwidth := by
          simp only [List.length_append, List.length_singleton]
          omega
        rcases ih { s with bits := s.bits ++ [false], offset := (s.offset + 1) % 8 }
            hig hbits2 hlen2 with ⟨hbound, heq⟩ | ⟨hbound, o, heq⟩
        · left
          constructor
          · simp only [List.length_append, List.length_singleton] at hbound
            omega
          · exact heq
        · right
          constructor
          · simp only [List.length_append, List.length_singleton] at hbound
            omega
          · refine ⟨o, ?_⟩
            have harith : m + 1 - (s.pointwidth - s.bits.length) =
                m - (s.pointwidth - (s.bits ++ [false]).length) := by
              simp only [List.length_append, List.length_singleton]
              omega
            rw [harith]
            exact heq

end Lzw

namespace Lzw

/-- A zero byte unpacks to eight false bits. -/
theorem byteBits_zero : byteBits 0 = List.replicate 8 false := by decide

/-- A run of zero bytes unpacks to a run of false bits. -/
theorem bytestobits_replicate_zero (n : Nat) :
    bytestobits (List.replicate n 0) = List.replicate (8 * n) false := by
  induction n with
  | zero => rfl
  | succ n ih =>
      rw [List.replicate_succ]
      simp only [bytestobits]
      rw [byteBits_zero, ih, show 8 * (n + 1) = 8 + 8 * n from by ring, List.replicate_add]

/-- Closed form of the unpacker trace on an all-false bit stream: provided
enough bits remain for `k + 1` full groups, the `k`-th emitted entry is
codepoint 0, carrying the width after `k` non-control updates and a reset
counter advanced by `k`. -/
theorem unpackBits_zero_trace (k : Nat) : ∀ (m : Nat) (s : UnpackState),
    s.bits = [] → s.ignore = 0 → 1 ≤ s.pointwidth →
    zbits (k + 1) (s.codesize, s.pointwidth) ≤ m →
    (unpackBits (List.replicate m false) s).get? k =
      some ⟨0, (ziter k (s.codesize, s.pointwidth)).2, s.sinceReset + k⟩ := by
  induction k with
  | zero =>
      intro m s hb hig hpw hm
      have hfalse : ∀ b ∈ s.bits, b = false := by
        rw [hb]
        intro b hb2
        simp at hb2
      have hlt : s.bits.length < s.pointwidth := by
        rw [hb]
        simpa using hpw
      have hpwm : s.pointwidth ≤ m := by
        have hone : zbits (0 + 1) (s.codesize, s.pointwidth) = s.pointwidth := by
          simp [zbits]
        omega
      rcases unpackBits_zero_acc m s hig hfalse hlt with ⟨hbound, _⟩ | ⟨_, o, heq⟩
      · exfalso
        rw [hb] at hbound
        simp at hbound
        omega
      · rw [heq]
        simp [ziter]
  | succ k ih =>
      intro m s hb hig hpw hm
      have hfalse : ∀ b ∈ s.bits, b = false := by
        rw [hb]
        intro b hb2
        simp at hb2
      have hlt : s.bits.length < s.pointwidth := by
        rw [hb]
        simpa using hpw
      have hsplit : zbits (k + 1 + 1) (s.codesize, s.pointwidth) =
          s.pointwidth + zbits (k + 1) (zstep (s.codesize, s.pointwidth)) := by
        rw [show k + 1 + 1 = 1 + (k + 1) from by omega, zbits_add]
        simp [zbits, ziter]
      rw [hsplit] at hm
      have hpwm : s.pointwidth ≤ m := by omega
      rcases unpackBits_zero_acc m s hig hfalse hlt with ⟨hbound, _⟩ | ⟨_, o, heq⟩
      · exfalso
        rw [hb] at hbound
        simp at hbound
        omega
      · have harg : m - (s.pointwidth - s.bits.length) = m - s.pointwidth := by
          rw [hb]
          simp
        rw [harg] at heq
        rw [heq]
        simp only [List.get?]
        have hig1 : s.ignore = 0 := hig
        have hpw1 : 1 ≤ growWidth (s.codesize + 1) s.pointwidth :=
          le_trans hpw (growWidth_spec (s.codesize + 1) s.pointwidth).1
        have hm1 : zbits (k + 1) (s.codesize + 1, growWidth (s.codesize + 1) s.pointwidth) ≤
            m - s.pointwidth := by
          have hz : zstep (s.codesize, s.pointwidth) =
              (s.codesize + 1, growWidth (s.codesize + 1) s.pointwidth) := rfl
          rw [hz] at hm
          omega
        have hres := ih (m - s.pointwidth)
          { s with bits := ([] : List Bool), offset := o,
                   codesize := s.codesize + 1,
                   pointwidth := growWidth (s.codesize + 1) s.pointwidth,
                   sinceReset := s.sinceReset + 1 } rfl hig1 hpw1 hm1
        rw [hres]
        dsimp only
        simp only [ziter]
        have hz : zstep (s.codesize, s.pointwidth) =
            (s.codesize + 1, growWidth (s.codesize + 1) s.pointwidth) := rfl
        rw [hz]
        have hsum : s.sinceReset + 1 + k = s.sinceReset + (k + 1) := by omega
        rw [hsum]

end Lzw

namespace Lzw

/-- Width/codesize chunk 0. -/
theorem ziter_c0 : ziter 200 (258, 9) = (458, 9) := by decide

/-- Width/codesize chunk 1. -/
theorem ziter_c1 : ziter 200 (458, 9) = (658, 10) := by decide

/-- Width/codesize chunk 2. -/
theorem ziter_c2 : ziter 200 (658, 10) = (858, 10) := by decide

/-- Width/codesize chunk 3. -/
theorem ziter_c3 : ziter 200 (858, 10) = (1058, 11) := by decide

/-- Width/codesize chunk 4. -/
theorem ziter_c4 : ziter 200 (1058, 11) = (1258, 11) := by decide

/-- Width/codesize chunk 5. -/
theorem ziter_c5 : ziter 200 (1258, 11) = (1458, 11) := by decide

/-- Width/codesize chunk 6. -/
theorem ziter_c6 : ziter 200 (1458, 11) = (1658, 11) := by decide

/-- Width/codesize chunk 7. -/
theorem ziter_c7 : ziter 200 (1658, 11) = (1858, 11) := by decide

/-- Width/codesize chunk 8. -/
theorem ziter_c8 : ziter 200 (1858, 11) = (2058, 12) := by decide

/-- Width/codesize chunk 9. -/
theorem ziter_c9 : ziter 200 (2058, 12) = (2258, 12) := by decide

/-- Width/codesize chunk 10. -/
theorem ziter_c10 : ziter 200 (2258, 12) = (2458, 12) := by decide

/-- Width/codesize chunk 11. -/
theorem ziter_c11 : ziter 200 (2458, 12) = (2658, 12) := by decide

/-- Width/codesize chunk 12. -/
theorem ziter_c12 : ziter 200 (2658, 12) = (2858, 12) := by decide

/-- Width/codesize chunk 13. -/
theorem ziter_c13 : ziter 200 (2858, 12) = (3058, 12) := by decide

/-- Width/codesize chunk 14. -/
theorem ziter_c14 : ziter 200 (3058, 12) = (3258, 12) := by decide

/-- Width/codesize chunk 15. -/
theorem ziter_c15 : ziter 200 (3258, 12) = (3458, 12) := by decide

/-- Width/codesize chunk 16. -/
theorem ziter_c16 : ziter 200 (3458, 12) = (3658, 12) := by decide

/-- Width/codesize chunk 17. -/
theorem ziter_c17 : ziter 200 (3658, 12) = (3858, 12) := by decide

/-- Width/codesize chunk 18. -/
theorem ziter_c18 : ziter 200 (3858, 12) = (4058, 12) := by decide

/-- Final width/codesize chunk: the codebook counter reaches 4096 and
the width first becomes 13. -/
theorem ziter_c19 : ziter 38 (4058, 12) = (4096, 13) := by decide

/-- Bit-count chunk 0. -/
theorem zbits_c0 : zbits 200 (258, 9) = 1800 := by decide

/-- Bit-count chunk 1. -/
theorem zbits_c1 : zbits 200 (458, 9) = 1946 := by decide

/-- Bit-count chunk 2. -/
theorem zbits_c2 : zbits 200 (658, 10) = 2000 := by decide

/-- Bit-count chunk 3. -/
theorem zbits_c3 : zbits 200 (858, 10) = 2034 := by decide

/-- Bit-count chunk 4. -/
theorem zbits_c4 : zbits 200 (1058, 11) = 2200 := by decide

/-- Bit-count chunk 5. -/
theorem zbits_c5 : zbits 200 (1258, 11) = 2200 := by decide

/-- Bit-count chunk 6. -/
theorem zbits_c6 : zbits 200 (1458, 11) = 2200 := by decide

/-- Bit-count chunk 7. -/
theorem zbits_c7 : zbits 200 (1658, 11) = 2200 := by decide

/-- Bit-count chunk 8. -/
theorem zbits_c8 : zbits 200 (1858, 11) = 2210 := by decide

/-- Bit-count chunk 9. -/
theorem zbits_c9 : zbits 200 (2058, 12) = 2400 := by decide

/-- Bit-count chunk 10. -/
theorem zbits_c10 : zbits 200 (2258, 12) = 2400 := by decide

/-- Bit-count chunk 11. -/
theorem zbits_c11 : zbits 200 (2458, 12) = 2400 := by decide

/-- Bit-count chunk 12. -/
theorem zbits_c12 : zbits 200 (2658, 12) = 2400 := by decide

/-- Bit-count chunk 13. -/
theorem zbits_c13 : zbits 200 (2858, 12) = 2400 := by decide

/-- Bit-count chunk 14. -/
theorem zbits_c14 : zbits 200 (3058, 12) = 2400 := by decide

/-- Bit-count chunk 15. -/
theorem zbits_c15 : zbits 200 (3258, 12) = 2400 := by decide

/-- Bit-count chunk 16. -/
theorem zbits_c16 : zbits 200 (3458, 12) = 2400 := by decide

/-- Bit-count chunk 17. -/
theorem zbits_c17 : zbits 200 (3658, 12) = 2400 := by decide

/-- Bit-count chunk 18. -/
theorem zbits_c18 : zbits 200 (3858, 12) = 2400 := by decide

/-- Final bit-count chunk. -/
theorem zbits_c19 : zbits 39 (4058, 12) = 469 := by decide

/-- After 3838 non-control updates from a fresh reset the width is 13. -/
theorem ziter_3838 : ziter 3838 (258, 9) = (4096, 13) := by
  rw [show (3838 : Nat) = 200 + 3638 from by norm_num, ziter_add, ziter_c0]
  rw [show (3638 : Nat) = 200 + 3438 from by norm_num, ziter_add, ziter_c1]
  rw [show (3438 : Nat) = 200 + 3238 from by norm_num, ziter_add, ziter_c2]
  rw [show (3238 : Nat) = 200 + 3038 from by norm_num, ziter_add, ziter_c3]
  rw [show (3038 : Nat) = 200 + 2838 from by norm_num, ziter_add, ziter_c4]
  rw [show (2838 : Nat) = 200 + 2638 from by norm_num, ziter_add, ziter_c5]
  rw [show (2638 : Nat) = 200 + 2438 from by norm_num, ziter_add, ziter_c6]
  rw [show (2438 : Nat) = 200 + 2238 from by norm_num, ziter_add, ziter_c7]
  rw [show (2238 : Nat) = 200 + 2038 from by norm_num, ziter_add, ziter_c8]
  rw [show (2038 : Nat) = 200 + 1838 from by norm_num, ziter_add, ziter_c9]
  rw [show (1838 : Nat) = 200 + 1638 from by norm_num, ziter_add, ziter_c10]
  rw [show (1638 : Nat) = 200 + 1438 from by norm_num, ziter_add, ziter_c11]
  rw [show (1438 : Nat) = 200 + 1238 from by norm_num, ziter_add, ziter_c12]
  rw [show (1238 : Nat) = 200 + 1038 from by norm_num, ziter_add, ziter_c13]
  rw [show (1038 : Nat) = 200 + 838 from by norm_num, ziter_add, ziter_c14]
  rw [show (838 : Nat) = 200 + 638 from by norm_num, ziter_add, ziter_c15]
  rw [show (638 : Nat) = 200 + 438 from by norm_num, ziter_add, ziter_c16]
  rw [show (438 : Nat) = 200 + 238 from by norm_num, ziter_add, ziter_c17]
  rw [show (238 : Nat) = 200 + 38 from by norm_num, ziter_add, ziter_c18]
  rw [ziter_c19]

/-- 3839 all-zero emissions from a fresh reset consume 43259 bits. -/
theorem zbits_3839 : zbits 3839 (258, 9) = 43259 := by
  rw [show (3839 : Nat) = 200 + 3639 from by norm_num, zbits_add, zbits_c0, ziter_c0]
  rw [show (3639 : Nat) = 200 + 3439 from by norm_num, zbits_add, zbits_c1, ziter_c1]
  rw [show (3439 : Nat) = 200 + 3239 from by norm_num, zbits_add, zbits_c2, ziter_c2]
  rw [show (3239 : Nat) = 200 + 3039 from by norm_num, zbits_add, zbits_c3, ziter_c3]
  rw [show (3039 : Nat) = 200 + 2839 from by norm_num, zbits_add, zbits_c4, ziter_c4]
  rw [show (2839 : Nat) = 200 + 2639 from by norm_num, zbits_add, zbits_c5, ziter_c5]
  rw [show (2639 : Nat) = 200 + 2439 from by norm_num, zbits_add, zbits_c6, ziter_c6]
  rw [show (2439 : Nat) = 200 + 2239 from by norm_num, zbits_add, zbits_c7, ziter_c7]
  rw [show (2239 : Nat) = 200 + 2039 from by norm_num, zbits_add, zbits_c8, ziter_c8]
  rw [show (2039 : Nat) = 200 + 1839 from by norm_num, zbits_add, zbits_c9, ziter_c9]
  rw [show (1839 : Nat) = 200 + 1639 from by norm_num, zbits_add, zbits_c10, ziter_c10]
  rw [show (1639 : Nat) = 200 + 1439 from by norm_num, zbits_add, zbits_c11, ziter_c11]
  rw [show (1439 : Nat) = 200 + 1239 from by norm_num, zbits_add, zbits_c12, ziter_c12]
  rw [show (1239 : Nat) = 200 + 1039 from by norm_num, zbits_add, zbits_c13, ziter_c13]
  rw [show (1039 : Nat) = 200 + 839 from by norm_num, zbits_add, zbits_c14, ziter_c14]
  rw [show (839 : Nat) = 200 + 639 from by norm_num, zbits_add, zbits_c15, ziter_c15]
  rw [show (639 : Nat) = 200 + 439 from by norm_num, zbits_add, zbits_c16, ziter_c16]
  rw [show (439 : Nat) = 200 + 239 from by norm_num, zbits_add, zbits_c17, ziter_c17]
  rw [show (239 : Nat) = 200 + 39 from by norm_num, zbits_add, zbits_c18, ziter_c18]
  rw [zbits_c19]

/-- The initial unpacker state for PDF code size 258 satisfies the width
invariant. -/
theorem winv_init : WInv (initUnpackState 258) := by
  refine ⟨rfl, by decide, rfl, Or.inl (by decide)⟩

/-- The trace of the unpacker on 5408 zero bytes: entry `j ≤ 3838` is
codepoint 0 with the width after `j` non-control updates, emitted with
reset counter `j`. -/
theorem zeroTrace_get (j : Nat) (hj : j ≤ 3838) :
    (unpackTrace 258 (List.replicate 5408 0)).get? j =
      some ⟨0, (ziter j (258, 9)).2, j⟩ := by
  have hmw : minWidth 258 = 9 := by decide
  have hbound : zbits (j + 1) (258, 9) ≤ 43264 := by
    have h1 := zbits_mono (j + 1) 3839 (258, 9) (by omega)
    rw [zbits_3839] at h1
    omega
  have hpw0 : 1 ≤ (initUnpackState 258).pointwidth := by
    show 1 ≤ minWidth 258
    rw [hmw]
    omega
  have hm0 : zbits (j + 1) ((initUnpackState 258).codesize, (initUnpackState 258).pointwidth) ≤
      43264 := by
    show zbits (j + 1) (258, minWidth 258) ≤ 43264
    rw [hmw]
    exact hbound
  have htr := unpackBits_zero_trace j 43264 (initUnpackState 258) rfl rfl hpw0 hm0
  unfold unpackTrace
  rw [bytestobits_replicate_zero, show 8 * 5408 = 43264 from by norm_num, htr]
  have hpair : ((initUnpackState 258).codesize, (initUnpackState 258).pointwidth) =
      ((258 : Nat), (9 : Nat)) := by
    show ((258 : Nat), minWidth 258) = ((258 : Nat), (9 : Nat))
    rw [hmw]
  rw [hpair]
  have hsr : (initUnpackState 258).sinceReset + j = j := by
    show 0 + j = j
    omega
  rw [hsr]

/-- On 5408 zero bytes, emission 3838 carries width 13 with no reset in
between. -/
theorem zeroTrace_get_3838 :
    (unpackTrace 258 (List.replicate 5408 0)).get? 3838 = some ⟨0, 13, 3838⟩ := by
  have h := zeroTrace_get 3838 (le_refl 3838)
  rw [ziter_3838] at h
  exact h

end Lzw

namespace Lzw

/-- The reset-counter instrumentation is determined by the emitted trace
itself: the counter carried by entry `i` equals the length of the run of
non-control entries immediately preceding it.  `t0` accumulates the
already-emitted prefix. -/
theorem unpackBits_since (bs : List Bool) : ∀ (s : UnpackState) (t0 : List UEntry),
    s.sinceReset = ((t0.reverse).takeWhile noCtrl).length →
    ∀ (i : Nat) (e : UEntry), (unpackBits bs s).get? i = some e →
      e.since =
        ((((t0 ++ unpackBits bs s).take (t0.length + i)).reverse).takeWhile noCtrl).length := by
  induction bs with
  | nil =>
      intro s t0 hs i e hg
      simp [unpackBits] at hg
  | cons b bs ih =>
      intro s t0 hs i e hg
      cases hstep : unpackStepBit s b with
      | mk s2 oe =>
          simp only [unpackBits, hstep] at hg ⊢
          rcases unpackStepBit_cases s b s2 oe hstep with
            ⟨hoe, hsr, _⟩ | ⟨e0, hoe, hww, hss, hini, hmin, hupd⟩
          · subst hoe
            exact ih s2 t0 (by rw [hsr, hs]) i e hg
          · subst hoe
            cases i with
            | zero =>
                have hg2 : (e0 :: unpackBits bs s2).get? 0 = some e := hg
                have he : e0 = e := by
                  simpa using hg2
                show e.since =
                  ((((t0 ++ (e0 :: unpackBits bs s2)).take (t0.length + 0)).reverse).takeWhile
                      noCtrl).length
                rw [Nat.add_zero, List.take_left, ← he, hss, hs]
            | succ j =>
                have hg3 : (unpackBits bs s2).get? j = some e := hg
                show e.since =
                  ((((t0 ++ (e0 :: unpackBits bs s2)).take (t0.length + (j + 1))).reverse).takeWhile
                      noCtrl).length
                rw [List.append_cons]
                have hlen : t0.length + (j + 1) = (t0 ++ [e0]).length + j := by
                  simp only [List.length_append, List.length_singleton]
                  omega
                rw [hlen]
                have hs2 : s2.sinceReset = (((t0 ++ [e0]).reverse).takeWhile noCtrl).length := by
                  rw [List.reverse_append]
                  simp only [List.reverse_singleton, List.singleton_append]
                  rcases hupd with ⟨hc, _, _, hsr2⟩ | ⟨hc, _, _, hsr2⟩
                  · rw [List.takeWhile_cons_of_pos hc]
                    rw [hsr2, hs]
                    simp
                  · rw [List.takeWhile_cons_of_neg (by rw [hc]; exact Bool.false_ne_true)]
                    rw [hsr2]
                    rfl
                exact ih s2 (t0 ++ [e0]) hs2 j e hg3
end Lzw

/-- Claim C5: the property as stated by the spec is FALSE.  The Bit
Unpacker never resets its width on its own: on the 5408-zero-byte input
the trace contains no CLEAR or END-OF-INFO emission up to index 3838,
yet the entry at index 3838 is emitted with width 13 > 12.  The unpacker
happily grows past the 12-bit ceiling when the compressed stream fails
to send a reset before the codebook counter reaches 4096. -/
theorem c5_width_claim_false : ¬ WidthCappedClaim := by
  intro h
  have hpre : ∀ j e2, j ≤ 3838 →
      (Lzw.unpackTrace 258 (List.replicate 5408 0)).get? j = some e2 →
      e2.cp ≠ Lzw.CLEAR_CODE ∧ e2.cp ≠ Lzw.END_OF_INFO_CODE := by
    intro j e2 hj hg
    have hz := Lzw.zeroTrace_get j hj
    rw [hz] at hg
    have he : (⟨0, (Lzw.ziter j (258, 9)).2, j⟩ : Lzw.UEntry) = e2 := by
      simpa using hg
    rw [← he]
    constructor
    · show (0 : Nat) ≠ Lzw.CLEAR_CODE
      decide
    · show (0 : Nat) ≠ Lzw.END_OF_INFO_CODE
      decide
  have h13 := h (List.replicate 5408 0) 3838 ⟨0, 13, 3838⟩ Lzw.zeroTrace_get_3838 hpre
  exact absurd h13 (by decide)

/-- Claim C5 (amended): at every emission of the Bit Unpacker seeded with
initial codebook size 258, the reset-counter instrumentation equals the
length of the run of non-control emissions immediately preceding the
entry, and the width in effect exceeds 12 bits only when at least 3838
non-control codepoints have been emitted since the last reset — i.e. only
when the codebook counter has been driven to its 4096-entry (12-bit)
ceiling with no CLEAR/END-OF-INFO in between.  For inputs whose encoder
resets before 4096 entries, as the spec's 12-bit ceiling requires, the
width therefore never exceeds 12. -/
theorem c5_width_growth_bound (bs : List Nat) (i : Nat) (e : Lzw.UEntry)
    (hg : (Lzw.unpackTrace 258 bs).get? i = some e) :
    e.since =
      ((((Lzw.unpackTrace 258 bs).take i).reverse).takeWhile Lzw.noCtrl).length ∧
    (12 < e.width → 3838 ≤ e.since) := by
  constructor
  · have h := Lzw.unpackBits_since (Lzw.bytestobits bs) (Lzw.initUnpackState 258) [] rfl i e hg
    unfold Lzw.unpackTrace
    simpa using h
  · intro hw
    have hmem : e ∈ Lzw.unpackTrace 258 bs := List.get?_mem hg
    exact Lzw.unpackBits_winv (Lzw.bytestobits bs) (Lzw.initUnpackState 258) Lzw.winv_init
      e hmem hw

/-- Witness for the amended C5 theorem at the 5408-zero-byte input: entry
3838 of the trace is codepoint 0 at width 13, its reset counter 3838
equals the length of the non-control run before it, and the width bound
12 < 13 → 3838 ≤ 3838 holds. -/
theorem c5_width_growth_bound_witness :
    (Lzw.unpackTrace 258 (List.replicate 5408 0)).get? 3838 =
        some ⟨0, 13, 3838⟩ ∧
    ((3838 : Nat) =
        ((((Lzw.unpackTrace 258 (List.replicate 5408 0)).take 3838).reverse).takeWhile
            Lzw.noCtrl).length ∧
      (12 < 13 → 3838 ≤ 3838)) :=
  ⟨Lzw.zeroTrace_get_3838,
    c5_width_growth_bound (List.replicate 5408 0) 3838 ⟨0, 13, 3838⟩ Lzw.zeroTrace_get_3838⟩
